import Mathlib

/-!
# Postgres mock matching, replay normalisation and the connection sweep (keploy)

A shallow embedding of `pkg/proxy/integrations/postgresParser/utils.go` and
`postgres_transcoder.go` (namespace `PostgresParser`) and of
`pkg/hooks/connection/factory.go` (namespace `Connection`).

Conventions of the embedding.

* A Go `[]byte` and a Go `string` are both modelled by the list of their bytes
  (`List Nat`, every real byte being below 256).
* A Go run that does not return normally is an explicit outcome: `Run.panic`
  for a run-time panic (nil dereference, index or slice bound out of range) and
  `Run.hang` for a loop whose state has stopped changing.
* `*models.Mock` is `Option Mock`, `none` being the nil pointer.  Mocks are
  modelled by value: distinct entries of a pool are assumed not to share
  storage, so an in-place update of one message is the functional update of
  that message.
* `h.SetTcsMocks(pool)` is recorded as the pool it was called with.
* The map `factory.connections` is the list of its entries in the order of the
  visit; the tracker methods, the HTTP parsers and the mode, none of which is
  among the sources, are parameters of the sweep.
* `float64` similarities are modelled by exact rationals.  A similarity is the
  quotient of two set sizes, and the correctly rounded quotient of two integers
  below `2 ^ 26` orders exactly as the rationals do.
-/

namespace PostgresParser

/-! ## Outcomes -/

/-- Result of running a piece of Go code. -/
inductive Run (α : Type) where
  | ok (a : α)
  | panic
  | hang
deriving DecidableEq

/-- Sequencing of two runs: the first abnormal outcome wins. -/
def Run.bind {α β : Type} (r : Run α) (f : α → Run β) : Run β :=
  match r with
  | Run.ok a => f a
  | Run.panic => Run.panic
  | Run.hang => Run.hang

/-- Bytes of a Go byte slice. -/
abbrev GoBytes := List Nat

/-- Bytes of a Go string. -/
abbrev GoString := List Nat

/-- Bytes of an ASCII literal. -/
def ascii (s : String) : GoString := s.toList.map Char.toNat

/-! ## `encoding/base64`, `StdEncoding` -/

/-- The standard alphabet: the character that encodes the 6-bit value `v`. -/
def b64Char (v : Nat) : Nat :=
  if v < 26 then 65 + v
  else if v < 52 then 97 + (v - 26)
  else if v < 62 then 48 + (v - 52)
  else if v = 62 then 43
  else 47

/-- The decode map of the standard alphabet: the 6-bit value of a character,
if it has one. -/
def b64Val (c : Nat) : Option Nat :=
  if 65 ≤ c ∧ c ≤ 90 then some (c - 65)
  else if 97 ≤ c ∧ c ≤ 122 then some (c - 97 + 26)
  else if 48 ≤ c ∧ c ≤ 57 then some (c - 48 + 52)
  else if c = 43 then some 62
  else if c = 47 then some 63
  else none

/-- Padded standard encoding: `base64.StdEncoding.EncodeToString`. -/
def EncodeToString : GoBytes → GoString
  | [] => []
  | [a] =>
    let v := a * 65536
    [b64Char (v / 262144 % 64), b64Char (v / 4096 % 64), 61, 61]
  | [a, b] =>
    let v := a * 65536 + b * 256
    [b64Char (v / 262144 % 64), b64Char (v / 4096 % 64), b64Char (v / 64 % 64), 61]
  | a :: b :: c :: rest =>
    let v := a * 65536 + b * 256 + c
    b64Char (v / 262144 % 64) :: b64Char (v / 4096 % 64) :: b64Char (v / 64 % 64)
      :: b64Char (v % 64) :: EncodeToString rest

/-- Skips the line breaks `\n` and `\r`. -/
def skipNewlines : GoString → GoString
  | [] => []
  | c :: rest => if c = 10 ∨ c = 13 then skipNewlines rest else c :: rest

/-- The bytes of one quantum: `d` holds the 2, 3 or 4 six-bit values read, and
one byte less than that is produced (non-strict mode: left-over bits are
dropped). -/
def quantumBytes (d : List Nat) : GoBytes :=
  let v := d.getD 0 0 * 262144 + d.getD 1 0 * 4096 + d.getD 2 0 * 64 + d.getD 3 0
  [v / 65536 % 256, v / 256 % 256, v % 256].take (d.length - 1)

/-- The decoding loop of `Encoding.Decode` for the padded, non-strict standard
encoding; `d` is the part of the current quantum read so far.  `none` is a
`CorruptInputError`. -/
def decodeLoop : GoString → List Nat → Option GoBytes
  | [], [] => some []
  | [], _ :: _ => none
  | c :: rest, d =>
    match b64Val c with
    | some v =>
      if d.length = 3 then (decodeLoop rest []).map (fun out => quantumBytes (d ++ [v]) ++ out)
      else decodeLoop rest (d ++ [v])
    | none =>
      if c = 10 ∨ c = 13 then decodeLoop rest d
      else if c ≠ 61 then none
      else if d.length < 2 then none
      else if d.length = 2 then
        match skipNewlines rest with
        | [] => none
        | c2 :: rest2 =>
          if c2 ≠ 61 then none
          else if skipNewlines rest2 = [] then some (quantumBytes d) else none
      else if skipNewlines rest = [] then some (quantumBytes d) else none

/-- The function `base64.StdEncoding.DecodeString`, reduced to what its caller keeps: the decoded
bytes, or `none` when the text is corrupt. -/
def DecodeString (s : GoString) : Option GoBytes := decodeLoop s []

/-- A byte slice as Go holds it: the visible bytes and the capacity of the
backing array.  `DecodeString` allocates `len(s) / 4 * 3` zeroed bytes and
returns the first `n` of them, so a slice expression may reach the zero bytes
between length and capacity. -/
structure ByteSlice where
  data : GoBytes
  cap : Nat
deriving DecidableEq

/-- The nil slice. -/
def ByteSlice.nil : ByteSlice := ⟨[], 0⟩

/-- Go `PostgresDecoder`: the decoded slice and whether an error was returned;
on error the slice is nil. -/
def PostgresDecoder (encoded : GoString) : ByteSlice × Bool :=
  match DecodeString encoded with
  | some data => (⟨data, encoded.length / 4 * 3⟩, false)
  | none => (ByteSlice.nil, true)

/-- Go `PostgresEncoder`. -/
def PostgresEncoder (buffer : GoBytes) : GoString := EncodeToString buffer

/-- Go `binary.BigEndian.Uint32` of four bytes. -/
def be32 (b : GoBytes) : Nat :=
  b.getD 0 0 * 16777216 + b.getD 1 0 * 65536 + b.getD 2 0 * 256 + b.getD 3 0

/-! ## Recorded mocks -/

/-- Modelled from the spec: the `models` package is not among the sources.  One
message of a generic payload; `Data` is base64 text. -/
structure OutputBinary where
  Type_ : GoString
  Data : GoString
deriving DecidableEq

/-- Modelled from the spec: the `models` package is not among the sources.  One
recorded request or response of a generic exchange. -/
structure GenericPayload where
  Origin : GoString
  Message : List OutputBinary
deriving DecidableEq

/-- Modelled from the spec: the `models` package is not among the sources.  The
recorded single-message Postgres request; `Payload` is base64 text. -/
structure PostgresReq where
  Payload : GoString
deriving DecidableEq

/-- Modelled from the spec: the `models` package is not among the sources.  The
recorded single-message Postgres response. -/
structure PostgresResp where
  Payload : GoString
deriving DecidableEq

/-- Modelled from the spec: the `models` package is not among the sources.  The
fields of `models.MockSpec` that the matcher and the rewrite read or write. -/
structure MockSpec where
  PostgresReq : PostgresReq
  PostgresResp : PostgresResp
  GenericRequests : List GenericPayload
  GenericResponses : List GenericPayload
deriving DecidableEq

/-- Modelled from the spec: the `models` package is not among the sources.  A
recorded exchange. -/
structure Mock where
  Name : GoString
  Spec : MockSpec
deriving DecidableEq

/-- A mock pool, Go `[]*models.Mock`; `none` is a nil pointer. -/
abbrev Pool := List (Option Mock)

/-- Dereference of a `*models.Mock`. -/
def deref : Option Mock → Run Mock
  | some m => Run.ok m
  | none => Run.panic

/-- Go `xs[i]` on a slice. -/
def index {α : Type} (xs : List α) (i : Int) : Run α :=
  if i < 0 then Run.panic
  else match xs[i.toNat]? with
    | some x => Run.ok x
    | none => Run.panic

/-- Go `append(xs[:idx], xs[idx+1:]...)` for an index in range. -/
def removeAt {α : Type} (xs : List α) (idx : Nat) : List α := xs.eraseIdx idx

/-! ## Similarity toolkit -/

/-- Go `IsAsciiPrintable`.  Ranging over a Go string yields runes; a byte of
128 or more starts either a rune above `unicode.MaxASCII` or an invalid
sequence (rune `0xFFFD`), and `unicode.IsPrint` on ASCII holds from the space
(32) to the tilde (126). -/
def IsAsciiPrintable (s : GoString) : Bool :=
  s.all (fun r => !(decide (r > 127) || !(decide (32 ≤ r) && decide (r ≤ 126))))

/-- One row of the edit-distance table: `c` is the current character of the
longer text, `diag` and `left` the neighbouring cells. -/
def levRow (c : Nat) : List Nat → List Nat → Nat → Nat → List Nat
  | a :: s1, xj :: xs, diag, left =>
    let current := if c ≠ a then min (min (diag + 1) (left + 1)) (xj + 1) else diag
    current :: levRow c s1 xs xj current
  | _, _, _, _ => []

/-- All rows of the edit-distance table; `x` is the row above, `i` its number. -/
def levRows (s1 : List Nat) : List Nat → List Nat → Nat → List Nat
  | [], x, _ => x
  | c :: s2, x, i => levRows s1 s2 ((i + 1) :: levRow c s1 (x.drop 1) (x.getD 0 0) (i + 1)) (i + 1)

/-- The library function `levenshtein.ComputeDistance` (package `agnivade/levenshtein`), on texts
whose runes are their bytes. -/
def ComputeDistance (a b : GoString) : Nat :=
  if a.length = 0 then b.length
  else if b.length = 0 then a.length
  else if a = b then 0
  else
    let s1 := if a.length > b.length then b else a
    let s2 := if a.length > b.length then a else b
    (levRows s1 s2 (List.range (s1.length + 1)) 0).getLastD 0

/-- Largest Go `int`, the value of `int(^uint(0) >> 1)` on a 64-bit target. -/
def maxInt : Nat := 9223372036854775807

/-- The loop of `findStringMatch`.  The range clause `for idx, req := range
mockString` declares a new `req` that shadows the parameter, so the distance is
taken between `mockString[idx]` and itself. -/
def findStringMatchLoop : List GoString → Nat → Nat → Int → Int
  | [], _, _, bestMatch => bestMatch
  | req :: rest, idx, minDist, bestMatch =>
    if !IsAsciiPrintable req then findStringMatchLoop rest (idx + 1) minDist bestMatch
    else
      let dist := ComputeDistance req req
      if dist = 0 then 0
      else if dist < minDist then findStringMatchLoop rest (idx + 1) dist idx
      else findStringMatchLoop rest (idx + 1) minDist bestMatch

/-- Go `findStringMatch`; the parameter `req` is never read. -/
def findStringMatch (_req : GoString) (mockString : List GoString) : Int :=
  findStringMatchLoop mockString 0 maxInt (-1)

/-- Go `AdaptiveK`; integer division truncates and panics on a zero divisor. -/
def AdaptiveK (length kMin kMax N : Int) : Run Int :=
  if N = 0 then Run.panic
  else
    let k := Int.tdiv length N
    if k < kMin then Run.ok kMin
    else if k > kMax then Run.ok kMax
    else Run.ok k

/-- Go `CreateShingles`: the set of the `k`-byte windows of `data`.  A negative
`k` makes the first slice expression `data[0:k]` panic. -/
def CreateShingles (data : GoBytes) (k : Int) : Run (Finset GoString) :=
  if k < 0 then Run.panic
  else Run.ok
    ((List.range (data.length + 1 - k.toNat)).map (fun i => (data.drop i).take k.toNat)).toFinset

/-- Go `JaccardSimilarity`. -/
def JaccardSimilarity (setA setB : Finset GoString) : ℚ :=
  let intersectionSize : Int := (setA.filter (fun k => k ∈ setB)).card
  let unionSize : Int := setA.card + setB.card - intersectionSize
  if unionSize = 0 then 0 else (intersectionSize : ℚ) / (unionSize : ℚ)

/-- The similarity that both binary matchers compute for one recorded text and
one incoming buffer. -/
def similarityOf (recorded : GoString) (reqBuff : GoBytes) : Run ℚ :=
  let encoded := (PostgresDecoder recorded).1
  (AdaptiveK reqBuff.length 3 8 5).bind fun k =>
  (CreateShingles encoded.data k).bind fun shingles1 =>
  (CreateShingles reqBuff k).bind fun shingles2 =>
  Run.ok (JaccardSimilarity shingles1 shingles2)

/-- The loop of `findBinaryMatch`. -/
def findBinaryMatchLoop (reqBuff : GoBytes) : Pool → Nat → ℚ → Int → Run Int
  | [], _, _, mxIdx => Run.ok mxIdx
  | p :: rest, idx, mxSim, mxIdx =>
    (deref p).bind fun mock =>
    (similarityOf mock.Spec.PostgresReq.Payload reqBuff).bind fun similarity =>
    if mxSim < similarity then findBinaryMatchLoop reqBuff rest (idx + 1) similarity idx
    else findBinaryMatchLoop reqBuff rest (idx + 1) mxSim mxIdx

/-- Go `findBinaryMatch`. -/
def findBinaryMatch (configMocks : Pool) (reqBuff : GoBytes) : Run Int :=
  findBinaryMatchLoop reqBuff configMocks 0 (-1) (-1)

/-! ## `Fuzzymatch` -/

/-- What a matcher hands back: the two returned values and the pool given to
`SetTcsMocks`, if that call was made. -/
structure MatchResult (α : Type) where
  found : Bool
  response : α
  setTcsMocks : Option Pool
deriving DecidableEq

/-- The exact-equality test of `Fuzzymatch` on one mock. -/
def exactEq (mock : Mock) (reqBuff : GoBytes) : Bool :=
  let encoded := (PostgresDecoder mock.Spec.PostgresReq.Payload).1
  decide (encoded.data = reqBuff) || decide (mock.Spec.PostgresReq.Payload = PostgresEncoder reqBuff)

/-- The first loop of `Fuzzymatch`: the index and the mock of the first exact
match, scanning from position `idx`. -/
def exactLoop (reqBuff : GoBytes) : Pool → Nat → Run (Option (Nat × Mock))
  | [], _ => Run.ok none
  | p :: rest, idx =>
    (deref p).bind fun mock =>
    if exactEq mock reqBuff then Run.ok (some (idx, mock))
    else exactLoop reqBuff rest (idx + 1)

/-- The loop that fills `mockString`. -/
def mockStrings : Pool → Run (List GoString)
  | [] => Run.ok []
  | p :: rest =>
    (deref p).bind fun mock =>
    (mockStrings rest).bind fun strs =>
    Run.ok (mock.Spec.PostgresReq.Payload :: strs)

/-- The tail shared by the two fuzzy tiers: read the response of `tcsMocks[idx]`,
remove that entry, publish the pool, report the match. -/
def consume (tcsMocks : Pool) (idx : Int) : Run (MatchResult GoString) :=
  (index tcsMocks idx).bind fun p =>
  (deref p).bind fun mock =>
  Run.ok ⟨true, mock.Spec.PostgresResp.Payload, some (removeAt tcsMocks idx.toNat)⟩

/-- The binary tier of `Fuzzymatch`. -/
def binaryTier (tcsMocks : Pool) (reqBuff : GoBytes) : Run (MatchResult GoString) :=
  (findBinaryMatch tcsMocks reqBuff).bind fun idx =>
  if idx ≠ -1 then consume tcsMocks idx
  else Run.ok ⟨false, [], none⟩

/-- Go `Fuzzymatch`. -/
def Fuzzymatch (tcsMocks : Pool) (reqBuff : GoBytes) : Run (MatchResult GoString) :=
  (exactLoop reqBuff tcsMocks 0).bind fun hit =>
  match hit with
  | some (idx, mock) =>
    Run.ok ⟨true, mock.Spec.PostgresResp.Payload, some (removeAt tcsMocks idx)⟩
  | none =>
    (mockStrings tcsMocks).bind fun mockString =>
    if IsAsciiPrintable reqBuff then
      let idx := findStringMatch reqBuff mockString
      if idx ≠ -1 then consume tcsMocks idx
      else binaryTier tcsMocks reqBuff
    else binaryTier tcsMocks reqBuff

/-! ## `matchingPg` -/

/-- Go `p.Message[0].Data`. -/
def firstData (p : GenericPayload) : Run GoString :=
  (index p.Message 0).bind fun m => Run.ok m.Data

/-- The inner loop of the first tier of `matchingPg`, entered only when the mock
records as many requests as there are buffers, so that position `requestIndex`
of the one is paired with the same position of the other.  It reports whether
the `return` inside the loop was reached. -/
def anyPositionEq : List GenericPayload → List GoBytes → Run Bool
  | req :: reqs, reqBuff :: bufs =>
    (firstData req).bind fun data =>
    let bufStr := EncodeToString reqBuff
    let encoded := (PostgresDecoder data).1
    if decide (encoded.data = reqBuff) || decide (data = bufStr) then Run.ok true
    else anyPositionEq reqs bufs
  | _, _ => Run.ok false

/-- The first loop of `matchingPg`: the index and the mock at which it returned. -/
def exactStreamLoop (requestBuffers : List GoBytes) : Pool → Nat → Run (Option (Nat × Mock))
  | [], _ => Run.ok none
  | none :: rest, idx => exactStreamLoop requestBuffers rest (idx + 1)
  | some mock :: rest, idx =>
    if mock.Spec.GenericRequests.length = requestBuffers.length then
      (anyPositionEq mock.Spec.GenericRequests requestBuffers).bind fun hit =>
      if hit then Run.ok (some (idx, mock))
      else exactStreamLoop requestBuffers rest (idx + 1)
    else exactStreamLoop requestBuffers rest (idx + 1)

/-- The inner loop of `findBinaryStreamMatch` for the mock at index `idx`. -/
def streamInner (idx : Nat) : List GenericPayload → List GoBytes → ℚ → Int → Run (ℚ × Int)
  | req :: reqs, reqBuff :: bufs, mxSim, mxIdx =>
    (firstData req).bind fun data =>
    (similarityOf data reqBuff).bind fun similarity =>
    if mxSim < similarity then streamInner idx reqs bufs similarity idx
    else streamInner idx reqs bufs mxSim mxIdx
  | _, _, mxSim, mxIdx => Run.ok (mxSim, mxIdx)

/-- The outer loop of `findBinaryStreamMatch`. -/
def streamLoop (requestBuffers : List GoBytes) : Pool → Nat → ℚ → Int → Run Int
  | [], _, _, mxIdx => Run.ok mxIdx
  | p :: rest, idx, mxSim, mxIdx =>
    (deref p).bind fun mock =>
    if mock.Spec.GenericRequests.length = requestBuffers.length then
      (streamInner idx mock.Spec.GenericRequests requestBuffers mxSim mxIdx).bind fun st =>
      streamLoop requestBuffers rest (idx + 1) st.1 st.2
    else streamLoop requestBuffers rest (idx + 1) mxSim mxIdx

/-- Go `findBinaryStreamMatch`. -/
def findBinaryStreamMatch (tcsMocks : Pool) (requestBuffers : List GoBytes) : Run Int :=
  streamLoop requestBuffers tcsMocks 0 (-1) (-1)

/-- Go `matchingPg`. -/
def matchingPg (tcsMocks : Pool) (requestBuffers : List GoBytes) :
    Run (MatchResult (List GenericPayload)) :=
  (exactStreamLoop requestBuffers tcsMocks 0).bind fun hit =>
  match hit with
  | some (idx, mock) =>
    Run.ok ⟨true, mock.Spec.GenericResponses, some (removeAt tcsMocks idx)⟩
  | none =>
    (findBinaryStreamMatch tcsMocks requestBuffers).bind fun idx =>
    if idx ≠ -1 then
      (index tcsMocks idx).bind fun p =>
      (deref p).bind fun mock =>
      Run.ok ⟨true, mock.Spec.GenericResponses, some (removeAt tcsMocks idx.toNat)⟩
    else Run.ok ⟨false, [], none⟩

/-! ## Authentication messages -/

/-- Go `bytes.IndexByte`. -/
def indexByte : GoBytes → Nat → Int
  | [], _ => -1
  | b :: rest, c =>
    if b = c then 0
    else
      let r := indexByte rest c
      if r = -1 then -1 else r + 1

/-- Go `strings.Contains`. -/
def stringsContains : GoString → GoString → Bool
  | [], substr => substr.isEmpty
  | c :: rest, substr => substr.isPrefixOf (c :: rest) || stringsContains rest substr

/-- The `for len(authMechanisms) > 1` loop of `DecodeSASL`.  An iteration with
`idx <= 0` changes nothing, so the loop never leaves it: that is `Run.hang`.
Every other iteration shortens `authMechanisms`, so `fuel` equal to its length
is never used up. -/
def saslLoop : Nat → GoBytes → List GoString → Run (List GoString)
  | 0, authMechanisms, acc => if authMechanisms.length > 1 then Run.hang else Run.ok acc
  | fuel + 1, authMechanisms, acc =>
    if authMechanisms.length > 1 then
      let idx := indexByte authMechanisms 0
      if idx > 0 then
        saslLoop fuel (authMechanisms.drop (idx.toNat + 1)) (acc ++ [authMechanisms.take idx.toNat])
      else Run.hang
    else Run.ok acc

/-- Go `DecodeSASL`: the returned error (`none` is nil) and the final value of
the local `AuthMechanisms`. -/
def DecodeSASL (src : GoBytes) : Run (Option String × List GoString) :=
  if src.length < 4 then Run.ok (some "authentication message too short", [])
  else if be32 src ≠ 10 then Run.ok (some "bad auth type", [])
  else (saslLoop (src.drop 4).length (src.drop 4) []).bind fun mechs => Run.ok (none, mechs)

/-- Go `findAuthenticationMessageType`: the returned error, `none` being nil. -/
def findAuthenticationMessageType (src : GoBytes) : Run (Option String) :=
  if src.length < 4 then Run.ok (some "authentication message too short")
  else
    let authType := be32 (src.take 4)
    if authType = 0 then Run.ok none
    else if authType = 3 then Run.ok none
    else if authType = 5 then Run.ok none
    else if authType = 6 then Run.ok (some "AuthTypeSCMCreds is unimplemented")
    else if authType = 7 then Run.ok none
    else if authType = 8 then Run.ok none
    else if authType = 9 then Run.ok (some "AuthTypeSSPI is unimplemented")
    else if authType = 10 then (DecodeSASL src).bind fun _ => Run.ok none
    else if authType = 11 then Run.ok none
    else if authType = 12 then Run.ok none
    else Run.ok (some ("unknown authentication type: " ++ toString authType))

/-- Go `xs[low:]` on a byte slice. -/
def sliceFrom (xs : GoBytes) (low : Nat) : Run GoBytes :=
  if low ≤ xs.length then Run.ok (xs.drop low) else Run.panic

/-- Go `checkScram`. -/
def checkScram (packet : GoString) : Run Bool :=
  let dec := PostgresDecoder packet
  if dec.2 then Run.ok false
  else
    (index dec.1.data 0).bind fun messageType =>
    if messageType = 78 then Run.ok false
    else
      (sliceFrom dec.1.data 5).bind fun payload =>
      if messageType = 82 then
        (findAuthenticationMessageType payload).bind fun err =>
        if err ≠ none then Run.ok false
        else if stringsContains payload (ascii "SCRAM-SHA") then Run.ok true
        else Run.ok false
      else Run.ok false

/-- Go `isStartupPacket`.  The slice expression `packet[4:8]` is checked against
the capacity, and reads zero bytes past the length. -/
def isStartupPacket (packet : ByteSlice) : Run Bool :=
  if 8 ≤ packet.cap then
    let backing := packet.data ++ List.replicate (packet.cap - packet.data.length) 0
    Run.ok (decide (be32 ((backing.drop 4).take 4) = 196608))
  else Run.panic

/-! ## `ChangeAuthToMD5` -/

/-- Text of the response that asks for an MD5 password. -/
def md5AuthRequestText : String := "UgAAAAwAAAAF4I8BHg=="

/-- Text of the fixed MD5 password message. -/
def md5PasswordMessageText : String :=
  "cAAAAChtZDUzNTc3MWY3N2YxMDA4YmEzMDRkYjlkMmJmODM3YmZlOQA="

/-- Text of the fixed response to the MD5 password message. -/
def md5PasswordResponseText : String :=
  "UgAAAAgAAAAAUwAAABZhcHBsaWNhdGlvbl9uYW1lAABTAAAAGWNsaWVudF9lbmNvZGluZwBVVEY4AFMAAAAXRGF0"
    ++ "ZVN0eWxlAElTTywgTURZAFMAAAAZaW50ZWdlcl9kYXRldGltZXMAb24AUwAAABtJbnRlcnZhbFN0eWxlAHBvc3Rn"
    ++ "cmVzAFMAAAAUaXNfc3VwZXJ1c2VyAG9uAFMAAAAZc2VydmVyX2VuY29kaW5nAFVURjgAUwAAADJzZXJ2ZXJfdmVy"
    ++ "c2lvbgAxMy41IChEZWJpYW4gMTMuNS0xLnBnZGcxMTArMSkAUwAAACNzZXNzaW9uX2F1dGhvcml6YXRpb24AcG9z"
    ++ "dGdyZXMAUwAAACNzdGFuZGFyZF9jb25mb3JtaW5nX3N0cmluZ3MAb24AUwAAABVUaW1lWm9uZQBFdGMvVVRDAEsA"
    ++ "AAAMAAAAX09sZl9aAAAABUk="

/-- The response that asks for an MD5 password. -/
def md5AuthRequest : GoString := ascii md5AuthRequestText

/-- The fixed MD5 password message. -/
def md5PasswordMessage : GoString := ascii md5PasswordMessageText

/-- The fixed response to the MD5 password message. -/
def md5PasswordResponse : GoString := ascii md5PasswordResponseText

/-- Go `p.Message[0].Data = data`. -/
def setFirstData (p : GenericPayload) (data : GoString) : Run GenericPayload :=
  match p.Message with
  | [] => Run.panic
  | m :: ms => Run.ok { p with Message := { m with Data := data } :: ms }

/-- The condition `isStartupPacket(encode) || checkScram(...)` of one position;
the right operand is evaluated only when the left one is false. -/
def startupOrScram (encode : ByteSlice) (resp : GenericPayload) : Run Bool :=
  (isStartupPacket encode).bind fun startup =>
  if startup then Run.ok true
  else (firstData resp).bind fun data => checkScram data

/-- The body of the inner loop of `ChangeAuthToMD5` at one position, on the
request and the response of that position. -/
def rewritePair (req resp : GenericPayload) : Run (GenericPayload × GenericPayload) :=
  (firstData req).bind fun reqData =>
  let encode := (PostgresDecoder reqData).1
  (startupOrScram encode resp).bind fun cond =>
  if cond then
    (setFirstData resp md5AuthRequest).bind fun resp2 => Run.ok (req, resp2)
  else
    (index encode.data 0).bind fun tag =>
    if tag = 112 then
      (setFirstData req md5PasswordMessage).bind fun req2 =>
      (setFirstData resp md5PasswordResponse).bind fun resp2 => Run.ok (req2, resp2)
    else Run.ok (req, resp)

/-- The inner loop of `ChangeAuthToMD5`: the requests are visited in order and
`GenericResponses[requestIndex]` is the response at the same position.  With no
response at that position every path of the body panics, at the latest on the
index expression `GenericResponses[requestIndex]`.  Responses beyond the last
request are left as they are. -/
def rewriteMessages : List GenericPayload → List GenericPayload →
    Run (List GenericPayload × List GenericPayload)
  | [], resps => Run.ok ([], resps)
  | _ :: _, [] => Run.panic
  | req :: reqs, resp :: resps =>
    (rewritePair req resp).bind fun pr =>
    (rewriteMessages reqs resps).bind fun rest =>
    Run.ok (pr.1 :: rest.1, pr.2 :: rest.2)

/-- The body of the outer loop of `ChangeAuthToMD5` on one pool entry. -/
def rewriteMock (p : Option Mock) : Run (Option Mock) :=
  (deref p).bind fun mock =>
  (rewriteMessages mock.Spec.GenericRequests mock.Spec.GenericResponses).bind fun r =>
  Run.ok (some { mock with Spec := { mock.Spec with GenericRequests := r.1, GenericResponses := r.2 } })

/-- Go `ChangeAuthToMD5`: the pool handed to `SetTcsMocks` at the end. -/
def ChangeAuthToMD5 : Pool → Run Pool
  | [] => Run.ok []
  | p :: rest =>
    (rewriteMock p).bind fun p2 =>
    (ChangeAuthToMD5 rest).bind fun rest2 => Run.ok (p2 :: rest2)

/-- The positions at which a second pass of `ChangeAuthToMD5` does not repeat
the first: the request is not a startup packet, the response is detected as
SCRAM, and the decoded request is empty or starts with the tag `p`.  The first
pass replaces only the response there; the second pass then no longer sees
SCRAM and goes on to the test of the tag. -/
def scramOverPassword (req resp : GenericPayload) : Bool :=
  match firstData req, firstData resp with
  | Run.ok reqData, Run.ok respData =>
    decide (isStartupPacket (PostgresDecoder reqData).1 = Run.ok false) &&
    decide (checkScram respData = Run.ok true) &&
    (decide ((PostgresDecoder reqData).1.data.head? = some 112) ||
      decide ((PostgresDecoder reqData).1.data = []))
  | _, _ => false

/-! ## Sample recordings -/

/-- A generic payload with a single message holding the base64 text `data`. -/
def payloadOf (data : String) : GenericPayload := ⟨[], [⟨[], ascii data⟩]⟩

/-- A mock of a single-message exchange. -/
def postgresMock (name req resp : String) : Mock :=
  ⟨ascii name, ⟨⟨ascii req⟩, ⟨ascii resp⟩, [], []⟩⟩

/-- A mock of a multi-message exchange. -/
def genericMock (name : String) (reqs resps : List String) : Mock :=
  ⟨ascii name, ⟨⟨[]⟩, ⟨[]⟩, reqs.map payloadOf, resps.map payloadOf⟩⟩

/-- Two mocks that both record the request `X` (base64 `WA==`). -/
def twoMocksForX : List Mock :=
  [postgresMock "mockA" "WA==" "cmVzcEE=", postgresMock "mockB" "WA==" "cmVzcEI="]

/-- The AuthenticationSASL response `R`, length 23, code 10, mechanism
`SCRAM-SHA-256`. -/
def scramResponse : String := "UgAAABcAAAAKU0NSQU0tU0hBLTI1NgAA"

/-- A nine-byte frame with tag `p`: `p`, length 8, four zero bytes. -/
def passwordRequest : String := "cAAAAAgAAAAA"

/-- The five-byte Terminate frame `X`, length 4. -/
def terminateRequest : String := "WAAAAAQ="

/-- The ReadyForQuery response `Z`, length 5, status `I`. -/
def readyResponse : String := "WgAAAAVJ"

/-- Two recorded exchanges of two requests each: the first records `A`, `X`,
the second `A`, `B`. -/
def twoStreams : List Mock :=
  [genericMock "m0" ["QQ==", "WA=="] ["cjA="], genericMock "m1" ["QQ==", "Qg=="] ["cjE="]]

/-- A recorded exchange of a single request `A`. -/
def oneRequestStream : List Mock := [genericMock "m" ["QQ=="] ["cjA="]]

/-- A startup packet: length 16, protocol version 196608, the parameter
`user` = `u`. -/
def startupRequest : String := "AAAAEAADAAB1c2VyAHUAAA=="

/-- A pool of one exchange whose request has tag `p` and whose response is the
SCRAM response. -/
def passwordAnsweredByScram : Pool :=
  [some (genericMock "auth" [passwordRequest] [scramResponse])]

/-- A pool of one exchange whose request has tag `p` and whose response is
ReadyForQuery. -/
def passwordExchange : Pool :=
  [some (genericMock "pw" [passwordRequest] [readyResponse])]

/-- A pool of one exchange whose request is the five-byte Terminate frame and
whose response is the SCRAM response. -/
def terminateAnsweredByScram : Pool :=
  [some (genericMock "t" [terminateRequest] [scramResponse])]

/-- A pool of a Terminate exchange followed by a startup exchange answered by
the SCRAM response. -/
def terminateThenStartup : Pool :=
  [some (genericMock "t" [terminateRequest] [readyResponse]),
   some (genericMock "s" [startupRequest] [scramResponse])]

/-! ## Packet framing -/

/-- A `[]byte` argument as Go holds it: the visible bytes and the bytes of the
backing array past the length, which a slice expression may reach. -/
structure Buffer where
  data : GoBytes
  spare : GoBytes
deriving DecidableEq

/-- Go `cap(b)`. -/
def Buffer.cap (b : Buffer) : Nat := b.data.length + b.spare.length

/-- Go `b[low:high]`; the upper bound is checked against the capacity. -/
def Buffer.slice (b : Buffer) (low high : Nat) : Run GoBytes :=
  if low ≤ high ∧ high ≤ b.cap then Run.ok (((b.data ++ b.spare).take high).drop low)
  else Run.panic

/-- Modelled from the spec: the `models` package is not among the sources.  The
two packet shapes behind the interface `models.Packet`. -/
inductive Packet where
  | StartupPacket (Length ProtocolVersion : Nat)
  | RegularPacket (Identifier Length : Nat) (Payload : GoBytes)
deriving DecidableEq

/-- Modelled from the spec: the constant `models.ProtocolVersionNumber` is not
among the sources; the spec gives the magic number `0x00030000`. -/
def ProtocolVersionNumber : Nat := 196608

/-- The startup test of `IdentifyPacket`; `data[4:8]` is evaluated only when the
two tests before it hold. -/
def startupTest (data : Buffer) (length : Nat) : Run Bool :=
  if length > 4 ∧ data.data.length ≥ length then
    (data.slice 4 8).bind fun v => Run.ok (decide (be32 v = ProtocolVersionNumber))
  else Run.ok false

/-- Go `IdentifyPacket`: the returned packet and error, `none` being nil.  The
upper bound `length+1` of the payload slice is computed in `uint32`. -/
def IdentifyPacket (data : Buffer) : Run (Option Packet × Option String) :=
  if data.data.length < 4 then Run.ok (none, some "data too short")
  else
    let length := be32 (data.data.take 4)
    (startupTest data length).bind fun startup =>
    if startup then
      (data.slice 4 8).bind fun v =>
      Run.ok (some (Packet.StartupPacket length (be32 v)), none)
    else if data.data.length > 5 ∧ data.data.length ≥ length + 1 then
      (index data.data 4).bind fun identifier =>
      (data.slice 5 ((length + 1) % 4294967296)).bind fun payload =>
      Run.ok (some (Packet.RegularPacket identifier length payload), none)
    else Run.ok (none, some "unknown packet type or data too short for declared length")

/-! ## The loop of `DecodeSASL`, step by step -/

/-- One execution of the body of the loop of `DecodeSASL` on the loop state, the
slice `authMechanisms` and the list `AuthMechanisms`. -/
def saslStep (st : GoBytes × List GoString) : GoBytes × List GoString :=
  let idx := indexByte st.1 0
  if idx > 0 then (st.1.drop (idx.toNat + 1), st.2 ++ [st.1.take idx.toNat]) else st

/-- The loop condition `len(authMechanisms) > 1`. -/
def saslGuard (st : GoBytes × List GoString) : Bool := decide (st.1.length > 1)

/-- The big-endian code 10 of `AuthTypeSASL`. -/
def saslCode : GoBytes := [0, 0, 0, 10]

/-- The payload of the spec: code 10, then `SCRAM-SHA-256`, NUL,
`SCRAM-SHA-256-PLUS`, NUL, NUL. -/
def saslTwoMechanisms : GoBytes :=
  saslCode ++ ascii "SCRAM-SHA-256" ++ [0] ++ ascii "SCRAM-SHA-256-PLUS" ++ [0, 0]

/-- Code 10, then `SCRAM-SHA-256` followed by three NUL bytes. -/
def saslThreeNuls : GoBytes := saslCode ++ ascii "SCRAM-SHA-256" ++ [0, 0, 0]

/-- Code 10 followed by two NUL bytes. -/
def saslTwoNuls : GoBytes := saslCode ++ [0, 0]

/-- A buffer that declares length 5 and carries the tag `Q` and three more
bytes. -/
def regularSample : Buffer := ⟨[0, 0, 0, 5, 81, 65, 66, 67], []⟩

/-- A buffer that declares length 9 and carries the tag `Q` and the payload
`ABCDE`. -/
def regularSampleNine : Buffer := ⟨[0, 0, 0, 9, 81, 65, 66, 67, 68, 69], []⟩

/-- A buffer of six bytes that declares length 0 and carries the tag `Q` and
one more byte. -/
def zeroLengthSample : Buffer := ⟨[0, 0, 0, 0, 81, 65], []⟩

/-- A buffer of seven bytes and capacity seven that declares length 5. -/
def sevenByteSample : Buffer := ⟨[0, 0, 0, 5, 0, 3, 0], []⟩

/-- A startup packet of 16 bytes: length, version 196608, `user`, NUL, `u`,
NUL, NUL. -/
def startupSample : Buffer :=
  ⟨[0, 0, 0, 16, 0, 3, 0, 0, 117, 115, 101, 114, 0, 117, 0, 0], []⟩

end PostgresParser

namespace Connection

open PostgresParser

/-! ## Connection trackers and the sweep of the factory -/

/-- Key of the map `factory.connections` (`structs.ConnID`). -/
abbrev ConnID := Nat

/-- Modelled from the spec: `net/http` is not among the sources.  A parsed
request as far as `capture` reads it: `Body` is the result of
`io.ReadAll(req.Body)`, `none` standing for an error, and `Head` is everything
else. -/
structure HttpRequest where
  Head : GoBytes
  Body : Option GoBytes
deriving DecidableEq

/-- Modelled from the spec: `net/http` is not among the sources.  A parsed
response as far as `capture` reads it. -/
structure HttpResponse where
  Head : GoBytes
  Body : Option GoBytes
deriving DecidableEq

/-- Modelled from the spec: the file of the tracker is not among the sources.
`RecvBuf` and `SentBuf` are the fields the sweep reads; `complete`, `malformed`
and `inactive` are what `IsComplete()`, `Malformed()` and
`IsInactive(inactivityThreshold)` answer when the sweep asks. -/
structure Tracker where
  RecvBuf : GoBytes
  SentBuf : GoBytes
  complete : Bool
  malformed : Bool
  inactive : Bool
deriving DecidableEq

/-- Modelled from the spec: the `models` package is not among the sources.  The
value of `models.GetMode()`; `MODE_OFF` stands for every mode other than record
and test. -/
inductive Mode where
  | MODE_RECORD
  | MODE_TEST
  | MODE_OFF
deriving DecidableEq

/-- The argument of one `db.WriteTestcase` call, as far as it depends on the
parsed messages. -/
structure TestCase where
  HttpReq : HttpRequest
  ReqBody : GoBytes
  HttpResp : HttpResponse
  RespBody : GoBytes
deriving DecidableEq

/-- The collaborators of the sweep that are not among the sources: the two
parsers of package `pkg` (`none` is a returned error) and the mode. -/
structure Collaborators where
  ParseHTTPRequest : GoBytes → Option HttpRequest
  ParseHTTPResponse : GoBytes → HttpRequest → Option HttpResponse
  GetMode : Mode

/-- Go `capture`: the `WriteTestcase` calls it makes. -/
def capture (req : HttpRequest) (resp : HttpResponse) : List TestCase :=
  match req.Body with
  | none => []
  | some reqBody =>
    match resp.Body with
    | none => []
    | some respBody => [⟨req, reqBody, resp, respBody⟩]

/-- What the first loop of `HandleReadyConnections` accumulates: the keys to
delete and the `WriteTestcase` calls made, each with the key of the tracker it
was made for. -/
structure Sweep where
  trackersToDelete : List ConnID
  writes : List (ConnID × TestCase)
deriving DecidableEq

/-- The body of the first loop of `HandleReadyConnections` for one entry of the
map. -/
def visit (c : Collaborators) (st : Sweep) (entry : ConnID × Tracker) : Sweep :=
  let connID := entry.1
  let tracker := entry.2
  if tracker.complete then
    let st1 : Sweep := { st with trackersToDelete := st.trackersToDelete ++ [connID] }
    if tracker.SentBuf.length = 0 ∧ tracker.RecvBuf.length = 0 then st1
    else
      match c.ParseHTTPRequest tracker.RecvBuf with
      | none => st1
      | some parsedHttpReq =>
        match c.ParseHTTPResponse tracker.SentBuf parsedHttpReq with
        | none => st1
        | some parsedHttpRes =>
          match c.GetMode with
          | Mode.MODE_RECORD =>
            { st1 with writes := st1.writes
                ++ (capture parsedHttpReq parsedHttpRes).map fun tc => (connID, tc) }
          | Mode.MODE_TEST => st1
          | Mode.MODE_OFF => st1
  else if tracker.malformed || tracker.inactive then
    { st with trackersToDelete := st.trackersToDelete ++ [connID] }
  else st

/-- The `WriteTestcase` calls that the first loop makes for one entry. -/
def writesFor (c : Collaborators) (entry : ConnID × Tracker) : List (ConnID × TestCase) :=
  (visit c ⟨[], []⟩ entry).writes

/-- Go `delete(factory.connections, key)` on the map as a list of entries. -/
def deleteKey (connections : List (ConnID × Tracker)) (key : ConnID) :
    List (ConnID × Tracker) :=
  connections.filter fun entry => decide (entry.1 ≠ key)

/-- Go `HandleReadyConnections`.  The map `factory.connections` is the list of
its entries in the order in which the `range` clause happens to visit them; the
result is the map after the sweep and the `WriteTestcase` calls made. -/
def HandleReadyConnections (c : Collaborators) (connections : List (ConnID × Tracker)) :
    List (ConnID × Tracker) × List (ConnID × TestCase) :=
  let st := connections.foldl (visit c) ⟨[], []⟩
  (st.trackersToDelete.foldl deleteKey connections, st.writes)

/-- A stand-in for `pkg.ParseHTTPRequest` in the examples: it rejects the empty
buffer, and otherwise yields a request whose body reads as the buffer, unless
the buffer starts with the byte 33, in which case reading the body fails. -/
def sampleParseRequest (b : GoBytes) : Option HttpRequest :=
  if b = [] then none
  else if b.head? = some 33 then some ⟨b, none⟩
  else some ⟨b, some b⟩

/-- A stand-in for `pkg.ParseHTTPResponse` in the examples: it rejects the empty
buffer, and otherwise yields a response whose body reads as the buffer. -/
def sampleParseResponse (b : GoBytes) (_req : HttpRequest) : Option HttpResponse :=
  if b = [] then none else some ⟨b, some b⟩

/-- The example collaborators in a given mode. -/
def sampleCollaborators (mode : Mode) : Collaborators :=
  ⟨sampleParseRequest, sampleParseResponse, mode⟩

/-- A map of five trackers: a finished exchange, a finished exchange whose
tracker is also inactive, a connection still in progress, a finished
connection that sent nothing, and an unfinished malformed one. -/
def sampleConnections : List (ConnID × Tracker) :=
  [(1, ⟨ascii "GET", ascii "200", true, false, false⟩),
   (2, ⟨ascii "PUT", ascii "204", true, false, true⟩),
   (3, ⟨ascii "PO", [], false, false, false⟩),
   (4, ⟨ascii "GET", [], true, false, false⟩),
   (5, ⟨ascii "G", ascii "2", false, true, false⟩)]

/-- A map of one finished exchange whose request body cannot be read. -/
def unreadableBodyConnections : List (ConnID × Tracker) :=
  [(7, ⟨ascii "!POST", ascii "200", true, false, false⟩)]

end Connection

namespace PostgresParser

/-! ## Basic facts about runs -/

@[simp] theorem Run.bind_ok {α β : Type} (a : α) (f : α → Run β) :
    (Run.ok a).bind f = f a := rfl

@[simp] theorem Run.bind_panic {α β : Type} (f : α → Run β) :
    (Run.panic : Run α).bind f = Run.panic := rfl

@[simp] theorem Run.bind_hang {α β : Type} (f : α → Run β) :
    (Run.hang : Run α).bind f = Run.hang := rfl

theorem Run.bind_eq_ok {α β : Type} {r : Run α} {f : α → Run β} {b : β}
    (h : r.bind f = Run.ok b) : ∃ a, r = Run.ok a ∧ f a = Run.ok b := by
  cases r with
  | ok a => exact ⟨a, rfl, h⟩
  | panic => simp at h
  | hang => simp at h

@[simp] theorem deref_some (m : Mock) : deref (some m) = Run.ok m := rfl

@[simp] theorem deref_none : deref none = Run.panic := rfl

theorem deref_eq_ok {p : Option Mock} {m : Mock} (h : deref p = Run.ok m) : p = some m := by
  cases p with
  | none => simp at h
  | some x => simp at h; rw [h]

theorem index_eq_ok {α : Type} {xs : List α} {i : Int} {x : α} (h : index xs i = Run.ok x) :
    0 ≤ i ∧ xs[i.toNat]? = some x := by
  unfold index at h
  split at h
  · simp at h
  · rename_i hi
    split at h
    · rename_i y hy
      simp at h
      exact ⟨not_lt.mp hi, by rw [hy, h]⟩
    · simp at h

/-! ## The similarity toolkit never fails on the matchers' arguments -/

theorem AdaptiveK_default (n : Nat) :
    ∃ k : Int, AdaptiveK (n : Int) 3 8 5 = Run.ok k ∧ 3 ≤ k ∧ k ≤ 8 := by
  unfold AdaptiveK
  simp only [show ¬ ((5 : Int) = 0) by decide, if_false]
  by_cases h1 : Int.tdiv (n : Int) 5 < 3
  · exact ⟨3, by simp [h1], by decide, by decide⟩
  · by_cases h2 : Int.tdiv (n : Int) 5 > 8
    · exact ⟨8, by simp [h1, h2], by decide, by decide⟩
    · exact ⟨Int.tdiv (n : Int) 5, by simp [h1, h2], not_lt.mp h1, not_lt.mp h2⟩

theorem CreateShingles_ok (data : GoBytes) {k : Int} (hk : 0 ≤ k) :
    ∃ s, CreateShingles data k = Run.ok s := by
  unfold CreateShingles
  rw [if_neg (not_lt.mpr hk)]
  exact ⟨_, rfl⟩

theorem JaccardSimilarity_nonneg (setA setB : Finset GoString) :
    0 ≤ JaccardSimilarity setA setB := by
  unfold JaccardSimilarity
  have hle : (setA.filter (fun k => k ∈ setB)).card ≤ setA.card := Finset.card_filter_le _ _
  simp only
  split
  · exact le_refl _
  · apply div_nonneg
    · exact_mod_cast Nat.zero_le _
    · have : (0 : Int) ≤ (setA.card : Int) + (setB.card : Int)
          - ((setA.filter (fun k => k ∈ setB)).card : Int) := by omega
      exact_mod_cast this

/-- The similarity of a recorded text and a buffer is always computed, and it is
the Jaccard similarity of the two shingle sets for the adaptive length. -/
theorem similarityOf_eq (recorded : GoString) (reqBuff : GoBytes) :
    ∃ (k : Int) (s1 s2 : Finset GoString),
      AdaptiveK (reqBuff.length : Int) 3 8 5 = Run.ok k ∧
      CreateShingles (PostgresDecoder recorded).1.data k = Run.ok s1 ∧
      CreateShingles reqBuff k = Run.ok s2 ∧
      similarityOf recorded reqBuff = Run.ok (JaccardSimilarity s1 s2) := by
  obtain ⟨k, hk, hk3, _⟩ := AdaptiveK_default reqBuff.length
  have hk0 : 0 ≤ k := le_trans (by decide) hk3
  obtain ⟨s1, hs1⟩ := CreateShingles_ok (PostgresDecoder recorded).1.data hk0
  obtain ⟨s2, hs2⟩ := CreateShingles_ok reqBuff hk0
  refine ⟨k, s1, s2, hk, hs1, hs2, ?_⟩
  simp [similarityOf, hk, hs1, hs2]

theorem similarityOf_nonneg (recorded : GoString) (reqBuff : GoBytes) :
    ∃ q, similarityOf recorded reqBuff = Run.ok q ∧ 0 ≤ q := by
  obtain ⟨_, s1, s2, _, _, _, h⟩ := similarityOf_eq recorded reqBuff
  exact ⟨_, h, JaccardSimilarity_nonneg s1 s2⟩

/-! ## The exact tier of `Fuzzymatch` -/

theorem exactLoop_none (reqBuff : GoBytes) (ms : List Mock) (k : Nat)
    (h : ∀ m ∈ ms, exactEq m reqBuff = false) :
    exactLoop reqBuff (ms.map some) k = Run.ok none := by
  induction ms generalizing k with
  | nil => rfl
  | cons m ms ih =>
    have hm : exactEq m reqBuff = false := h m (List.mem_cons_self _ _)
    have hrest : ∀ x ∈ ms, exactEq x reqBuff = false :=
      fun x hx => h x (List.mem_cons_of_mem _ hx)
    simp [exactLoop, hm, ih (k + 1) hrest]

theorem exactLoop_first (reqBuff : GoBytes) (ms : List Mock) (k : Nat)
    (h : ∃ m ∈ ms, exactEq m reqBuff = true) :
    ∃ (i : Nat) (m : Mock), ms[i]? = some m ∧ exactEq m reqBuff = true ∧
      (∀ (j : Nat) (x : Mock), j < i → ms[j]? = some x → exactEq x reqBuff = false) ∧
      exactLoop reqBuff (ms.map some) k = Run.ok (some (k + i, m)) := by
  induction ms generalizing k with
  | nil => simp at h
  | cons m ms ih =>
    by_cases hm : exactEq m reqBuff = true
    · refine ⟨0, m, by simp, hm, ?_, ?_⟩
      · intro j x hj
        omega
      · simp [exactLoop, hm]
    · have hm2 : exactEq m reqBuff = false := by simpa using hm
      have hrest : ∃ x ∈ ms, exactEq x reqBuff = true := by
        obtain ⟨x, hx, hxe⟩ := h
        rcases List.mem_cons.mp hx with rfl | hx2
        · exact absurd hxe hm
        · exact ⟨x, hx2, hxe⟩
      obtain ⟨i, x, hi, hxe, hlow, hrun⟩ := ih (k + 1) hrest
      refine ⟨i + 1, x, by simpa using hi, hxe, ?_, ?_⟩
      · intro j y hj hy
        cases j with
        | zero =>
          simp at hy
          rw [← hy]
          exact hm2
        | succ j => exact hlow j y (by omega) (by simpa using hy)
      · simp [exactLoop, hm2, hrun]
        omega

theorem exactLoop_hit (reqBuff : GoBytes) (pool : Pool) (k i : Nat) (m : Mock)
    (h : exactLoop reqBuff pool k = Run.ok (some (i, m))) :
    ∃ j, i = k + j ∧ pool[j]? = some (some m) := by
  induction pool generalizing k with
  | nil => simp [exactLoop] at h
  | cons p rest ih =>
    unfold exactLoop at h
    obtain ⟨mock, hp, h2⟩ := Run.bind_eq_ok h
    have hp2 := deref_eq_ok hp
    by_cases he : exactEq mock reqBuff = true
    · simp [he] at h2
      exact ⟨0, by omega, by simp [hp2, h2.2]⟩
    · simp [he] at h2
      obtain ⟨j, hj, hget⟩ := ih (k + 1) h2
      exact ⟨j + 1, by omega, by simpa using hget⟩

theorem mockStrings_map_some (ms : List Mock) :
    mockStrings (ms.map some) = Run.ok (ms.map fun m => m.Spec.PostgresReq.Payload) := by
  induction ms with
  | nil => rfl
  | cons m ms ih => simp [mockStrings, ih]

/-! ## The string tier -/

theorem ComputeDistance_self (s : GoString) : ComputeDistance s s = 0 := by
  unfold ComputeDistance
  by_cases h : s.length = 0
  · simp [h]
  · simp [h]

/-- What `findStringMatch` computes: index 0 as soon as some candidate is ASCII
printable, whatever the request, and -1 otherwise. -/
theorem findStringMatchLoop_eq (strs : List GoString) (idx minDist : Nat) (bestMatch : Int) :
    findStringMatchLoop strs idx minDist bestMatch
      = if strs.any IsAsciiPrintable then 0 else bestMatch := by
  induction strs generalizing idx minDist bestMatch with
  | nil => simp [findStringMatchLoop]
  | cons s strs ih =>
    by_cases hs : IsAsciiPrintable s = true
    · simp [findStringMatchLoop, hs, ComputeDistance_self]
    · have hs2 : IsAsciiPrintable s = false := by simpa using hs
      simp [findStringMatchLoop, hs2, ih]

theorem findStringMatch_eq (req : GoString) (strs : List GoString) :
    findStringMatch req strs = if strs.any IsAsciiPrintable then 0 else -1 := by
  unfold findStringMatch
  exact findStringMatchLoop_eq strs 0 maxInt (-1)

/-! ## The binary tier -/

/-- The loop of `findBinaryMatch` on a pool of mocks: either no similarity
exceeds the running maximum and the running index is returned, or the lowest
position of the largest similarity is. -/
theorem findBinaryMatchLoop_spec (reqBuff : GoBytes) (sim : Mock → ℚ)
    (hsim : ∀ m : Mock, similarityOf m.Spec.PostgresReq.Payload reqBuff = Run.ok (sim m))
    (ms : List Mock) (idx : Nat) (mxSim : ℚ) (mxIdx : Int) :
    ∃ r : Int, findBinaryMatchLoop reqBuff (ms.map some) idx mxSim mxIdx = Run.ok r ∧
      ((r = mxIdx ∧ ∀ m ∈ ms, sim m ≤ mxSim) ∨
       (∃ (i : Nat) (m : Mock), ms[i]? = some m ∧ r = ((idx + i : Nat) : Int) ∧ mxSim < sim m ∧
          (∀ x ∈ ms, sim x ≤ sim m) ∧
          (∀ (j : Nat) (x : Mock), j < i → ms[j]? = some x → sim x < sim m))) := by
  induction ms generalizing idx mxSim mxIdx with
  | nil => exact ⟨mxIdx, rfl, Or.inl ⟨rfl, by simp⟩⟩
  | cons m ms ih =>
    by_cases hlt : mxSim < sim m
    · obtain ⟨r, hr, hcase⟩ := ih (idx + 1) (sim m) (idx : Int)
      refine ⟨r, by simp [findBinaryMatchLoop, hsim, hlt, hr], Or.inr ?_⟩
      rcases hcase with ⟨hri, hall⟩ | ⟨i, x, hi, hri, hmx, hall, hlow⟩
      · refine ⟨0, m, by simp, by simp [hri], hlt, ?_, ?_⟩
        · intro x hx
          rcases List.mem_cons.mp hx with rfl | hx2
          · exact le_refl _
          · exact hall x hx2
        · intro j x hj
          omega
      · refine ⟨i + 1, x, by simpa using hi, ?_, lt_trans hlt hmx, ?_, ?_⟩
        · rw [hri]
          push_cast
          ring
        · intro y hy
          rcases List.mem_cons.mp hy with rfl | hy2
          · exact le_of_lt hmx
          · exact hall y hy2
        · intro j y hj hy
          cases j with
          | zero =>
            simp at hy
            rw [← hy]
            exact hmx
          | succ j => exact hlow j y (by omega) (by simpa using hy)
    · obtain ⟨r, hr, hcase⟩ := ih (idx + 1) mxSim mxIdx
      refine ⟨r, by simp [findBinaryMatchLoop, hsim, hlt, hr], ?_⟩
      rcases hcase with ⟨hri, hall⟩ | ⟨i, x, hi, hri, hmx, hall, hlow⟩
      · refine Or.inl ⟨hri, ?_⟩
        intro x hx
        rcases List.mem_cons.mp hx with rfl | hx2
        · exact not_lt.mp hlt
        · exact hall x hx2
      · refine Or.inr ⟨i + 1, x, by simpa using hi, ?_, hmx, ?_, ?_⟩
        · rw [hri]
          push_cast
          ring
        · intro y hy
          rcases List.mem_cons.mp hy with rfl | hy2
          · exact le_trans (not_lt.mp hlt) (le_of_lt hmx)
          · exact hall y hy2
        · intro j y hj hy
          cases j with
          | zero =>
            simp at hy
            rw [← hy]
            exact lt_of_le_of_lt (not_lt.mp hlt) hmx
          | succ j => exact hlow j y (by omega) (by simpa using hy)

/-- The similarity that `findBinaryMatch` assigns to a mock: the shingle length
and the shingles of the request are the same for every mock. -/
theorem exists_similarity (reqBuff : GoBytes) :
    ∃ (k : Int) (shingles2 : Finset GoString) (sim : Mock → ℚ),
      AdaptiveK (reqBuff.length : Int) 3 8 5 = Run.ok k ∧
      CreateShingles reqBuff k = Run.ok shingles2 ∧
      (∀ m : Mock, ∃ shingles1 : Finset GoString,
        CreateShingles (PostgresDecoder m.Spec.PostgresReq.Payload).1.data k = Run.ok shingles1 ∧
        sim m = JaccardSimilarity shingles1 shingles2) ∧
      (∀ m : Mock, 0 ≤ sim m) ∧
      (∀ m : Mock, similarityOf m.Spec.PostgresReq.Payload reqBuff = Run.ok (sim m)) := by
  obtain ⟨k, hk, hk3, _⟩ := AdaptiveK_default reqBuff.length
  have hk0 : 0 ≤ k := le_trans (by decide) hk3
  obtain ⟨s2, hs2⟩ := CreateShingles_ok reqBuff hk0
  choose s1 hs1 using fun d : GoBytes => CreateShingles_ok d hk0
  refine ⟨k, s2, fun m => JaccardSimilarity
    (s1 (PostgresDecoder m.Spec.PostgresReq.Payload).1.data) s2, hk, hs2,
    fun m => ⟨_, hs1 _, rfl⟩, fun m => JaccardSimilarity_nonneg _ _, fun m => ?_⟩
  simp only [similarityOf, hk, Run.bind_ok, hs1 (PostgresDecoder m.Spec.PostgresReq.Payload).1.data,
    hs2]

/-- Go `findBinaryMatch` on a pool of mocks returns -1 on the empty pool and
otherwise the lowest index of the largest similarity. -/
theorem findBinaryMatch_spec (reqBuff : GoBytes) (sim : Mock → ℚ) (hpos : ∀ m : Mock, 0 ≤ sim m)
    (hsim : ∀ m : Mock, similarityOf m.Spec.PostgresReq.Payload reqBuff = Run.ok (sim m))
    (ms : List Mock) :
    ∃ r : Int, findBinaryMatch (ms.map some) reqBuff = Run.ok r ∧ (r = -1 ↔ ms = []) ∧
      (ms ≠ [] → ∃ (i : Nat) (m : Mock), ms[i]? = some m ∧ r = (i : Int) ∧
        (∀ x ∈ ms, sim x ≤ sim m) ∧
        (∀ (j : Nat) (x : Mock), j < i → ms[j]? = some x → sim x < sim m)) := by
  obtain ⟨r, hr, hcase⟩ := findBinaryMatchLoop_spec reqBuff sim hsim ms 0 (-1) (-1)
  refine ⟨r, hr, ?_⟩
  rcases hcase with ⟨hri, hall⟩ | ⟨i, m, hi, hri, _, hall, hlow⟩
  · have hnil : ms = [] := by
      cases ms with
      | nil => rfl
      | cons m ms =>
        have h1 := hall m (List.mem_cons_self _ _)
        have h2 := hpos m
        linarith
    subst hnil
    simp [hri]
  · have hne : ms ≠ [] := by
      intro h
      subst h
      simp at hi
    have hri2 : r = (i : Int) := by simpa using hri
    refine ⟨⟨fun h => by omega, fun h => absurd h hne⟩, fun _ => ⟨i, m, hi, hri2, hall, hlow⟩⟩

/-! ## Consuming the selected mock -/

theorem removeAt_eq {α : Type} (xs : List α) (idx : Nat) :
    removeAt xs idx = xs.take idx ++ xs.drop (idx + 1) := by
  unfold removeAt
  exact List.eraseIdx_eq_take_drop_succ xs idx

theorem consume_eq_ok (pool : Pool) (idx : Int) (r : MatchResult GoString)
    (h : consume pool idx = Run.ok r) :
    r.found = true ∧ ∃ mock : Mock, pool[idx.toNat]? = some (some mock) ∧
      r.response = mock.Spec.PostgresResp.Payload ∧
      r.setTcsMocks = some (removeAt pool idx.toNat) := by
  unfold consume at h
  obtain ⟨p, hp, h2⟩ := Run.bind_eq_ok h
  obtain ⟨mock, hm, h3⟩ := Run.bind_eq_ok h2
  have hp2 := (index_eq_ok hp).2
  have hm2 := deref_eq_ok hm
  simp at h3
  subst h3
  exact ⟨rfl, mock, by rw [hp2, hm2], rfl, rfl⟩

theorem consume_map_some (ms : List Mock) (i : Nat) (m : Mock) (hi : ms[i]? = some m) :
    consume (ms.map some) (i : Int)
      = Run.ok ⟨true, m.Spec.PostgresResp.Payload, some (removeAt (ms.map some) i)⟩ := by
  have hidx : index (ms.map some) (i : Int) = Run.ok (some m) := by
    unfold index
    simp [hi]
  simp [consume, hidx]

theorem mem_of_getElem?_eq {α : Type} {xs : List α} {i : Nat} {x : α} (h : xs[i]? = some x) :
    x ∈ xs := by
  obtain ⟨hlt, hx⟩ := List.getElem?_eq_some.mp h
  rw [← hx]
  exact List.getElem_mem hlt

theorem binaryTier_eq_ok (pool : Pool) (reqBuff : GoBytes) (r : MatchResult GoString)
    (h : binaryTier pool reqBuff = Run.ok r) :
    (r.found = true ∧ ∃ (idx : Nat) (mock : Mock), pool[idx]? = some (some mock) ∧
        r.response = mock.Spec.PostgresResp.Payload ∧
        r.setTcsMocks = some (removeAt pool idx)) ∨
    (r.found = false ∧ r.setTcsMocks = none) := by
  unfold binaryTier at h
  obtain ⟨idx, _, h2⟩ := Run.bind_eq_ok h
  by_cases hidx : idx = -1
  · simp [hidx] at h2
    subst h2
    exact Or.inr ⟨rfl, rfl⟩
  · simp [hidx] at h2
    obtain ⟨hf, mock, hget, hresp, hset⟩ := consume_eq_ok pool idx r h2
    exact Or.inl ⟨hf, idx.toNat, mock, hget, hresp, hset⟩

theorem binaryTier_map_some (ms : List Mock) (reqBuff : GoBytes) :
    ∃ r : MatchResult GoString, binaryTier (ms.map some) reqBuff = Run.ok r ∧
      (r.found = false ↔ ms = []) ∧
      (ms ≠ [] → ∃ m ∈ ms, r.response = m.Spec.PostgresResp.Payload) := by
  obtain ⟨_, _, sim, _, _, _, hpos, hsim⟩ := exists_similarity reqBuff
  obtain ⟨idx, hrun, hiff, hne⟩ := findBinaryMatch_spec reqBuff sim hpos hsim ms
  by_cases hnil : ms = []
  · subst hnil
    have hidx : idx = -1 := hiff.mpr rfl
    refine ⟨⟨false, [], none⟩, ?_, by simp, by simp⟩
    simp only [binaryTier]
    rw [hrun]
    simp [hidx]
  · obtain ⟨i, m, hi, hri, _, _⟩ := hne hnil
    have hidx : idx ≠ -1 := fun h => hnil (hiff.mp h)
    refine ⟨⟨true, m.Spec.PostgresResp.Payload, some (removeAt (ms.map some) i)⟩, ?_,
      by simp [hnil], fun _ => ⟨m, mem_of_getElem?_eq hi, rfl⟩⟩
    simp only [binaryTier]
    rw [hrun]
    simp only [Run.bind_ok, if_pos hidx]
    rw [hri]
    exact consume_map_some ms i m hi

/-! ## `Fuzzymatch` as a whole -/

theorem Fuzzymatch_exact (ms : List Mock) (reqBuff : GoBytes)
    (h : ∃ m ∈ ms, exactEq m reqBuff = true) :
    ∃ (i : Nat) (m : Mock), ms[i]? = some m ∧ exactEq m reqBuff = true ∧
      (∀ (j : Nat) (x : Mock), j < i → ms[j]? = some x → exactEq x reqBuff = false) ∧
      Fuzzymatch (ms.map some) reqBuff
        = Run.ok ⟨true, m.Spec.PostgresResp.Payload, some (removeAt (ms.map some) i)⟩ := by
  obtain ⟨i, m, hi, hm, hlow, hrun⟩ := exactLoop_first reqBuff ms 0 h
  refine ⟨i, m, hi, hm, hlow, ?_⟩
  simp [Fuzzymatch, hrun]

theorem Fuzzymatch_total (ms : List Mock) (reqBuff : GoBytes) :
    ∃ r : MatchResult GoString, Fuzzymatch (ms.map some) reqBuff = Run.ok r ∧
      (r.found = false ↔ ms = []) ∧
      (ms ≠ [] → ∃ m ∈ ms, r.response = m.Spec.PostgresResp.Payload) := by
  by_cases hex : ∃ m ∈ ms, exactEq m reqBuff = true
  · obtain ⟨i, m, hi, _, _, hrun⟩ := Fuzzymatch_exact ms reqBuff hex
    have hmem : m ∈ ms := mem_of_getElem?_eq hi
    have hne : ms ≠ [] := List.ne_nil_of_mem hmem
    exact ⟨_, hrun, by simp [hne], fun _ => ⟨m, hmem, rfl⟩⟩
  · have hnone : ∀ m ∈ ms, exactEq m reqBuff = false := by
      intro m hm
      by_contra hc
      exact hex ⟨m, hm, by simpa using hc⟩
    have hloop := exactLoop_none reqBuff ms 0 hnone
    by_cases hstr : IsAsciiPrintable reqBuff = true ∧
        (ms.map fun m => m.Spec.PostgresReq.Payload).any IsAsciiPrintable = true
    · have hne : ms ≠ [] := by
        intro hnil
        subst hnil
        simp at hstr
      obtain ⟨m, rest, hms⟩ := List.exists_cons_of_ne_nil hne
      have h0 : ms[0]? = some m := by simp [hms]
      refine ⟨⟨true, m.Spec.PostgresResp.Payload, some (removeAt (ms.map some) 0)⟩, ?_,
        by simp [hne], fun _ => ⟨m, mem_of_getElem?_eq h0, rfl⟩⟩
      have hc := consume_map_some ms 0 m h0
      simp only [Fuzzymatch, hloop, Run.bind_ok, mockStrings_map_some, findStringMatch_eq,
        hstr.1, hstr.2, if_true]
      simpa using hc
    · obtain ⟨r, hr, hiff, hresp⟩ := binaryTier_map_some ms reqBuff
      refine ⟨r, ?_, hiff, hresp⟩
      simp only [Fuzzymatch, hloop, Run.bind_ok, mockStrings_map_some, findStringMatch_eq]
      by_cases hp : IsAsciiPrintable reqBuff = true
      · have hany : (ms.map fun m => m.Spec.PostgresReq.Payload).any IsAsciiPrintable ≠ true :=
          fun h => hstr ⟨hp, h⟩
        simp [hp, hany, hr]
      · simp [hp, hr]

theorem Fuzzymatch_consumes (pool : Pool) (reqBuff : GoBytes) (r : MatchResult GoString)
    (h : Fuzzymatch pool reqBuff = Run.ok r) :
    (r.found = true ∧ ∃ (idx : Nat) (mock : Mock), pool[idx]? = some (some mock) ∧
        r.response = mock.Spec.PostgresResp.Payload ∧
        r.setTcsMocks = some (removeAt pool idx)) ∨
    (r.found = false ∧ r.setTcsMocks = none) := by
  unfold Fuzzymatch at h
  obtain ⟨hit, hloop, h2⟩ := Run.bind_eq_ok h
  cases hit with
  | some im =>
    obtain ⟨i, m⟩ := im
    obtain ⟨j, hj, hget⟩ := exactLoop_hit reqBuff pool 0 i m hloop
    simp at h2
    subst h2
    have hij : i = j := by omega
    subst hij
    exact Or.inl ⟨rfl, i, m, hget, rfl, rfl⟩
  | none =>
    simp only at h2
    obtain ⟨strs, _, h3⟩ := Run.bind_eq_ok h2
    by_cases hp : IsAsciiPrintable reqBuff = true
    · simp only [hp, if_true] at h3
      by_cases hidx : findStringMatch reqBuff strs = -1
      · simp only [hidx, ne_eq, not_true_eq_false, if_false] at h3
        exact binaryTier_eq_ok pool reqBuff r h3
      · simp only [ne_eq, hidx, not_false_eq_true, if_true] at h3
        obtain ⟨hf, mock, hget, hresp, hset⟩ := consume_eq_ok pool _ r h3
        exact Or.inl ⟨hf, _, mock, hget, hresp, hset⟩
    · simp only [hp] at h3
      exact binaryTier_eq_ok pool reqBuff r h3

/-! ## `matchingPg` -/

theorem firstData_ok (g : GenericPayload) (h : g.Message ≠ []) :
    ∃ data, firstData g = Run.ok data := by
  obtain ⟨m, rest, hm⟩ := List.exists_cons_of_ne_nil h
  refine ⟨m.Data, ?_⟩
  simp [firstData, index, hm]

theorem anyPositionEq_ok (reqs : List GenericPayload) (bufs : List GoBytes)
    (hwf : ∀ g ∈ reqs, g.Message ≠ []) :
    ∃ b, anyPositionEq reqs bufs = Run.ok b ∧ (b = true → bufs ≠ []) := by
  induction reqs generalizing bufs with
  | nil => exact ⟨false, by simp [anyPositionEq], by simp⟩
  | cons g reqs ih =>
    cases bufs with
    | nil => exact ⟨false, by simp [anyPositionEq], by simp⟩
    | cons reqBuff bufs =>
      obtain ⟨data, hd⟩ := firstData_ok g (hwf g (List.mem_cons_self _ _))
      obtain ⟨b, hb, _⟩ := ih bufs (fun x hx => hwf x (List.mem_cons_of_mem _ hx))
      by_cases hc : (decide ((PostgresDecoder data).1.data = reqBuff)
          || decide (data = EncodeToString reqBuff)) = true
      · exact ⟨true, by simp only [anyPositionEq, hd, Run.bind_ok, hc, if_true], by simp⟩
      · refine ⟨b, ?_, by simp⟩
        simp only [anyPositionEq, hd, Run.bind_ok, hc]
        simpa using hb

theorem exactStreamLoop_map_some (bufs : List GoBytes) (ms : List Mock) (k : Nat)
    (hwf : ∀ m ∈ ms, ∀ g ∈ m.Spec.GenericRequests, g.Message ≠ []) :
    ∃ hit, exactStreamLoop bufs (ms.map some) k = Run.ok hit ∧
      ∀ (i : Nat) (m : Mock), hit = some (i, m) →
        m ∈ ms ∧ m.Spec.GenericRequests.length = bufs.length ∧ bufs ≠ [] := by
  induction ms generalizing k with
  | nil => exact ⟨none, rfl, by simp⟩
  | cons m ms ih =>
    obtain ⟨hit, hrun, hspec⟩ := ih (k + 1) (fun x hx => hwf x (List.mem_cons_of_mem _ hx))
    have hspec2 : ∀ (i : Nat) (x : Mock), hit = some (i, x) →
        x ∈ m :: ms ∧ x.Spec.GenericRequests.length = bufs.length ∧ bufs ≠ [] := by
      intro i x hx
      obtain ⟨h1, h2, h3⟩ := hspec i x hx
      exact ⟨List.mem_cons_of_mem _ h1, h2, h3⟩
    by_cases hlen : m.Spec.GenericRequests.length = bufs.length
    · obtain ⟨b, hb, hbne⟩ := anyPositionEq_ok m.Spec.GenericRequests bufs
        (hwf m (List.mem_cons_self _ _))
      cases b with
      | true =>
        refine ⟨some (k, m), by simp [exactStreamLoop, hlen, hb], ?_⟩
        intro i x hx
        simp at hx
        rw [← hx.2]
        exact ⟨List.mem_cons_self _ _, hlen, hbne rfl⟩
      | false => exact ⟨hit, by simp [exactStreamLoop, hlen, hb, hrun], hspec2⟩
    · exact ⟨hit, by simp [exactStreamLoop, hlen, hrun], hspec2⟩

theorem exactStreamLoop_hit (bufs : List GoBytes) (pool : Pool) (k i : Nat) (m : Mock)
    (h : exactStreamLoop bufs pool k = Run.ok (some (i, m))) :
    ∃ j, i = k + j ∧ pool[j]? = some (some m) := by
  induction pool generalizing k with
  | nil => simp [exactStreamLoop] at h
  | cons p rest ih =>
    have hstep : ∀ h2 : exactStreamLoop bufs rest (k + 1) = Run.ok (some (i, m)),
        ∃ j, i = k + j ∧ (p :: rest)[j]? = some (some m) := by
      intro h2
      obtain ⟨j, hj, hget⟩ := ih (k + 1) h2
      exact ⟨j + 1, by omega, by simpa using hget⟩
    cases p with
    | none =>
      simp only [exactStreamLoop] at h
      exact hstep h
    | some mock =>
      simp only [exactStreamLoop] at h
      by_cases hlen : mock.Spec.GenericRequests.length = bufs.length
      · simp only [hlen, if_true] at h
        obtain ⟨b, _, h2⟩ := Run.bind_eq_ok h
        cases b with
        | true =>
          simp at h2
          exact ⟨0, by omega, by simp [h2.2]⟩
        | false =>
          simp at h2
          exact hstep h2
      · simp only [hlen, if_false] at h
        exact hstep h

theorem streamInner_spec (idx : Nat) (reqs : List GenericPayload) (bufs : List GoBytes)
    (mxSim : ℚ) (mxIdx : Int) (hwf : ∀ g ∈ reqs, g.Message ≠ []) :
    ∃ (s : ℚ) (i : Int), streamInner idx reqs bufs mxSim mxIdx = Run.ok (s, i) ∧
      mxSim ≤ s ∧ (i = mxIdx ∨ i = (idx : Int)) ∧
      ((reqs = [] ∨ bufs = []) → s = mxSim ∧ i = mxIdx) ∧
      (reqs ≠ [] → bufs ≠ [] → mxSim < 0 → 0 ≤ s ∧ i = (idx : Int)) := by
  induction reqs generalizing bufs mxSim mxIdx with
  | nil => exact ⟨mxSim, mxIdx, by simp [streamInner], le_refl _, Or.inl rfl, by simp, by simp⟩
  | cons g reqs ih =>
    cases bufs with
    | nil => exact ⟨mxSim, mxIdx, by simp [streamInner], le_refl _, Or.inl rfl, by simp, by simp⟩
    | cons reqBuff bufs =>
      obtain ⟨data, hd⟩ := firstData_ok g (hwf g (List.mem_cons_self _ _))
      obtain ⟨q, hq, hq0⟩ := similarityOf_nonneg data reqBuff
      have hwf2 : ∀ x ∈ reqs, x.Message ≠ [] := fun x hx => hwf x (List.mem_cons_of_mem _ hx)
      by_cases hlt : mxSim < q
      · obtain ⟨s, i, hrun, hle, hi, _, _⟩ := ih bufs q (idx : Int) hwf2
        have hi2 : i = (idx : Int) := by
          rcases hi with h | h <;> exact h
        refine ⟨s, i, by simp [streamInner, hd, hq, hlt, hrun], le_trans (le_of_lt hlt) hle,
          Or.inr hi2, by simp, ?_⟩
        intro _ _ _
        exact ⟨le_trans hq0 hle, hi2⟩
      · obtain ⟨s, i, hrun, hle, hi, _, _⟩ := ih bufs mxSim mxIdx hwf2
        refine ⟨s, i, by simp [streamInner, hd, hq, hlt, hrun], hle, hi, by simp, ?_⟩
        intro _ _ hneg
        exact absurd (lt_of_lt_of_le hneg hq0) hlt

theorem streamLoop_spec (bufs : List GoBytes) (ms : List Mock) (idx : Nat) (mxSim : ℚ)
    (mxIdx : Int) (hwf : ∀ m ∈ ms, ∀ g ∈ m.Spec.GenericRequests, g.Message ≠ [])
    (hst : (mxSim < 0 ∧ mxIdx = -1) ∨ (0 ≤ mxSim ∧ 0 ≤ mxIdx ∧ mxIdx < (idx : Int))) :
    ∃ r : Int, streamLoop bufs (ms.map some) idx mxSim mxIdx = Run.ok r ∧
      (r = -1 ∨ (0 ≤ r ∧ r < ((idx + ms.length : Nat) : Int))) ∧
      (r = -1 ↔ (mxIdx = -1 ∧
        ¬ (bufs ≠ [] ∧ ∃ m ∈ ms, m.Spec.GenericRequests.length = bufs.length))) := by
  induction ms generalizing idx mxSim mxIdx with
  | nil =>
    refine ⟨mxIdx, rfl, ?_, by simp⟩
    rcases hst with ⟨_, h⟩ | ⟨_, h1, h2⟩
    · exact Or.inl h
    · exact Or.inr ⟨h1, by simpa using h2⟩
  | cons m ms ih =>
    have hwf2 : ∀ x ∈ ms, ∀ g ∈ x.Spec.GenericRequests, g.Message ≠ [] :=
      fun x hx => hwf x (List.mem_cons_of_mem _ hx)
    by_cases hlen : m.Spec.GenericRequests.length = bufs.length
    · obtain ⟨s, i, hrun, hle, hi, hsame, hnew⟩ :=
        streamInner_spec idx m.Spec.GenericRequests bufs mxSim mxIdx
          (hwf m (List.mem_cons_self _ _))
      by_cases hb : bufs = []
      · obtain ⟨hs, hi2⟩ := hsame (Or.inr hb)
        subst hs
        subst hi2
        have hst2 : (s < 0 ∧ i = -1) ∨ (0 ≤ s ∧ 0 ≤ i ∧ i < ((idx + 1 : Nat) : Int)) := by
          rcases hst with h | ⟨h1, h2, h3⟩
          · exact Or.inl h
          · exact Or.inr ⟨h1, h2, by push_cast; omega⟩
        obtain ⟨r, hr, hrange, hiff⟩ := ih (idx + 1) s i hwf2 hst2
        refine ⟨r, by simp [streamLoop, hlen, hrun, hr], ?_, ?_⟩
        · rcases hrange with h | ⟨h1, h2⟩
          · exact Or.inl h
          · exact Or.inr ⟨h1, by simp only [List.length_cons]; push_cast at h2 ⊢; omega⟩
        · rw [hiff]
          simp [hb]
      · have hreq : m.Spec.GenericRequests ≠ [] := by
          intro h
          rw [h] at hlen
          exact hb (List.length_eq_zero.mp hlen.symm)
        have hst2 : 0 ≤ s ∧ 0 ≤ i ∧ i < ((idx + 1 : Nat) : Int) := by
          rcases hst with ⟨h1, _⟩ | ⟨h1, h2, h3⟩
          · obtain ⟨hs, hi2⟩ := hnew hreq hb h1
            exact ⟨hs, by rw [hi2]; exact Int.natCast_nonneg _, by rw [hi2]; push_cast; omega⟩
          · refine ⟨le_trans h1 hle, ?_, ?_⟩
            · rcases hi with h | h
              · rw [h]; exact h2
              · rw [h]; exact Int.natCast_nonneg _
            · rcases hi with h | h
              · rw [h]; push_cast; omega
              · rw [h]; push_cast; omega
        obtain ⟨r, hr, hrange, hiff⟩ := ih (idx + 1) s i hwf2 (Or.inr hst2)
        refine ⟨r, by simp [streamLoop, hlen, hrun, hr], ?_, ?_⟩
        · rcases hrange with h | ⟨h1, h2⟩
          · exact Or.inl h
          · exact Or.inr ⟨h1, by simp only [List.length_cons]; push_cast at h2 ⊢; omega⟩
        · constructor
          · intro hr1
            have := (hiff.mp hr1).1
            omega
          · intro hc
            exact absurd ⟨hb, m, List.mem_cons_self _ _, hlen⟩ hc.2
    · have hst2 : (mxSim < 0 ∧ mxIdx = -1)
          ∨ (0 ≤ mxSim ∧ 0 ≤ mxIdx ∧ mxIdx < ((idx + 1 : Nat) : Int)) := by
        rcases hst with h | ⟨h1, h2, h3⟩
        · exact Or.inl h
        · exact Or.inr ⟨h1, h2, by push_cast; omega⟩
      obtain ⟨r, hr, hrange, hiff⟩ := ih (idx + 1) mxSim mxIdx hwf2 hst2
      refine ⟨r, by simp [streamLoop, hlen, hr], ?_, ?_⟩
      · rcases hrange with h | ⟨h1, h2⟩
        · exact Or.inl h
        · exact Or.inr ⟨h1, by simp only [List.length_cons]; push_cast at h2 ⊢; omega⟩
      · rw [hiff]
        simp [hlen]

theorem matchingPg_map_some (ms : List Mock) (bufs : List GoBytes)
    (hwf : ∀ m ∈ ms, ∀ g ∈ m.Spec.GenericRequests, g.Message ≠ []) :
    ∃ r : MatchResult (List GenericPayload), matchingPg (ms.map some) bufs = Run.ok r ∧
      (r.found = true ↔
        (bufs ≠ [] ∧ ∃ m ∈ ms, m.Spec.GenericRequests.length = bufs.length)) ∧
      (r.found = true → ∃ m ∈ ms, r.response = m.Spec.GenericResponses) := by
  obtain ⟨hit, hloop, hspec⟩ := exactStreamLoop_map_some bufs ms 0 hwf
  cases hit with
  | some im =>
    obtain ⟨i, m⟩ := im
    obtain ⟨hmem, hlen, hb⟩ := hspec i m rfl
    refine ⟨⟨true, m.Spec.GenericResponses, some (removeAt (ms.map some) i)⟩, ?_, ?_, ?_⟩
    · simp [matchingPg, hloop]
    · simp only [true_iff]
      exact ⟨hb, m, hmem, hlen⟩
    · intro _
      exact ⟨m, hmem, rfl⟩
  | none =>
    obtain ⟨idx, hrun, hrange, hiff⟩ := streamLoop_spec bufs ms 0 (-1) (-1) hwf
      (Or.inl ⟨by norm_num, rfl⟩)
    have hrun2 : findBinaryStreamMatch (ms.map some) bufs = Run.ok idx := hrun
    by_cases hidx : idx = -1
    · refine ⟨⟨false, [], none⟩, ?_, ?_, by simp⟩
      · simp [matchingPg, hloop, hrun2, hidx]
      · have := (hiff.mp hidx).2
        simp only [Bool.false_eq_true, false_iff]
        exact this
    · have hr2 : 0 ≤ idx ∧ idx < ((0 + ms.length : Nat) : Int) := by
        rcases hrange with h | h
        · exact absurd h hidx
        · exact h
      have hlt : idx.toNat < ms.length := by
        have := hr2.2
        simp only [Nat.zero_add] at this
        omega
      have hget : ms[idx.toNat]? = some (ms[idx.toNat]) := List.getElem?_eq_getElem hlt
      have hindex : index (ms.map some) idx = Run.ok (some (ms[idx.toNat])) := by
        unfold index
        rw [if_neg (not_lt.mpr hr2.1)]
        simp [hget]
      refine ⟨⟨true, (ms[idx.toNat]).Spec.GenericResponses,
        some (removeAt (ms.map some) idx.toNat)⟩, ?_, ?_, ?_⟩
      · simp [matchingPg, hloop, hrun2, hidx, hindex]
      · simp only [true_iff]
        by_contra hc
        exact hidx (hiff.mpr ⟨rfl, hc⟩)
      · intro _
        exact ⟨ms[idx.toNat], List.getElem_mem hlt, rfl⟩

theorem matchingPg_consumes (pool : Pool) (bufs : List GoBytes)
    (r : MatchResult (List GenericPayload)) (h : matchingPg pool bufs = Run.ok r) :
    (r.found = true ∧ ∃ (idx : Nat) (mock : Mock), pool[idx]? = some (some mock) ∧
        r.response = mock.Spec.GenericResponses ∧
        r.setTcsMocks = some (removeAt pool idx)) ∨
    (r.found = false ∧ r.setTcsMocks = none) := by
  unfold matchingPg at h
  obtain ⟨hit, hloop, h2⟩ := Run.bind_eq_ok h
  cases hit with
  | some im =>
    obtain ⟨i, m⟩ := im
    obtain ⟨j, hj, hget⟩ := exactStreamLoop_hit bufs pool 0 i m hloop
    simp at h2
    subst h2
    have hij : i = j := by omega
    subst hij
    exact Or.inl ⟨rfl, i, m, hget, rfl, rfl⟩
  | none =>
    simp only at h2
    obtain ⟨idx, _, h3⟩ := Run.bind_eq_ok h2
    by_cases hidx : idx = -1
    · simp [hidx] at h3
      subst h3
      exact Or.inr ⟨rfl, rfl⟩
    · simp only [ne_eq, hidx, not_false_eq_true, if_true] at h3
      obtain ⟨p, hp, h4⟩ := Run.bind_eq_ok h3
      obtain ⟨mock, hm, h5⟩ := Run.bind_eq_ok h4
      have hp2 := (index_eq_ok hp).2
      have hm2 := deref_eq_ok hm
      simp at h5
      subst h5
      exact Or.inl ⟨rfl, idx.toNat, mock, by rw [hp2, hm2], rfl, rfl⟩

/-! ## `ChangeAuthToMD5`: the constants -/

set_option maxRecDepth 100000 in
theorem checkScram_md5AuthRequest : checkScram md5AuthRequest = Run.ok false := by decide

set_option maxRecDepth 100000 in
theorem checkScram_md5PasswordResponse : checkScram md5PasswordResponse = Run.ok false := by
  decide

set_option maxRecDepth 100000 in
theorem isStartupPacket_md5PasswordMessage :
    isStartupPacket (PostgresDecoder md5PasswordMessage).1 = Run.ok false := by decide

set_option maxRecDepth 100000 in
theorem tag_md5PasswordMessage :
    index (PostgresDecoder md5PasswordMessage).1.data 0 = Run.ok 112 := by decide

/-! ## `ChangeAuthToMD5`: one position -/

theorem firstData_eq_ok {g : GenericPayload} {data : GoString} (h : firstData g = Run.ok data) :
    ∃ m ms, g.Message = m :: ms ∧ m.Data = data := by
  unfold firstData at h
  obtain ⟨m, hm, h2⟩ := Run.bind_eq_ok h
  have hget := (index_eq_ok hm).2
  simp at h2
  cases hmsg : g.Message with
  | nil => simp [hmsg] at hget
  | cons x xs =>
    simp [hmsg] at hget
    exact ⟨x, xs, rfl, by rw [hget, h2]⟩

theorem setFirstData_ok {g : GenericPayload} {m : OutputBinary} {ms : List OutputBinary}
    (h : g.Message = m :: ms) (data : GoString) :
    setFirstData g data = Run.ok { g with Message := { m with Data := data } :: ms } := by
  simp [setFirstData, h]

theorem firstData_set (g : GenericPayload) (m : OutputBinary) (ms : List OutputBinary)
    (data : GoString) :
    firstData { g with Message := { m with Data := data } :: ms } = Run.ok data := by
  simp [firstData, index]

theorem setFirstData_set (g : GenericPayload) (m : OutputBinary) (ms : List OutputBinary)
    (data : GoString) :
    setFirstData { g with Message := { m with Data := data } :: ms } data
      = Run.ok { g with Message := { m with Data := data } :: ms } := by
  simp [setFirstData]

/-- The first branch of the loop body: the response is replaced by the MD5
authentication request and the request is kept. -/
theorem rewritePair_auth (req resp : GenericPayload) (reqData : GoString)
    (hreq : firstData req = Run.ok reqData)
    (hcond : startupOrScram (PostgresDecoder reqData).1 resp = Run.ok true)
    (out : GenericPayload × GenericPayload) (h : rewritePair req resp = Run.ok out) :
    out.1 = req ∧ firstData out.2 = Run.ok md5AuthRequest ∧
      setFirstData resp md5AuthRequest = Run.ok out.2 := by
  simp only [rewritePair, hreq, Run.bind_ok, hcond, if_true] at h
  obtain ⟨resp2, hset, h2⟩ := Run.bind_eq_ok h
  simp at h2
  subst h2
  refine ⟨rfl, ?_, hset⟩
  unfold setFirstData at hset
  cases hmsg : resp.Message with
  | nil => simp [hmsg] at hset
  | cons m ms =>
    simp [hmsg] at hset
    rw [← hset]
    exact firstData_set resp m ms md5AuthRequest

/-- The second branch of the loop body: a request with tag `p` that is not a
startup packet and whose response is not SCRAM is replaced together with its
response, and the body returns. -/
theorem rewritePair_password (req resp : GenericPayload) (reqData respData : GoString)
    (hreq : firstData req = Run.ok reqData) (hresp : firstData resp = Run.ok respData)
    (hstart : isStartupPacket (PostgresDecoder reqData).1 = Run.ok false)
    (hscram : checkScram respData = Run.ok false)
    (htag : (PostgresDecoder reqData).1.data.head? = some 112) :
    ∃ req2 resp2, rewritePair req resp = Run.ok (req2, resp2) ∧
      setFirstData req md5PasswordMessage = Run.ok req2 ∧
      setFirstData resp md5PasswordResponse = Run.ok resp2 ∧
      firstData req2 = Run.ok md5PasswordMessage ∧
      firstData resp2 = Run.ok md5PasswordResponse := by
  obtain ⟨m, ms, hm, _⟩ := firstData_eq_ok hreq
  obtain ⟨n, ns, hn, _⟩ := firstData_eq_ok hresp
  have hidx : index (PostgresDecoder reqData).1.data 0 = Run.ok 112 := by
    cases hd : (PostgresDecoder reqData).1.data with
    | nil => simp [hd] at htag
    | cons b rest =>
      simp [hd] at htag
      simp [index, htag]
  refine ⟨_, _, ?_, setFirstData_ok hm _, setFirstData_ok hn _, firstData_set _ _ _ _,
    firstData_set _ _ _ _⟩
  simp [rewritePair, hreq, startupOrScram, hstart, hresp, hscram, hidx, setFirstData_ok hm,
    setFirstData_ok hn]

/-- A second pass over a position repeats the first, except at the positions
singled out by `scramOverPassword`. -/
theorem rewritePair_idem (req resp : GenericPayload) (out : GenericPayload × GenericPayload)
    (h : rewritePair req resp = Run.ok out) (hgood : scramOverPassword req resp = false) :
    rewritePair out.1 out.2 = Run.ok out := by
  have h0 := h
  unfold rewritePair at h
  obtain ⟨reqData, hreq, h1⟩ := Run.bind_eq_ok h
  obtain ⟨cond, hcond, h2⟩ := Run.bind_eq_ok h1
  cases cond with
  | true =>
    simp only [if_true] at h2
    obtain ⟨resp2, hset, h3⟩ := Run.bind_eq_ok h2
    simp at h3
    subst h3
    unfold setFirstData at hset
    cases hn : resp.Message with
    | nil => simp [hn] at hset
    | cons n ns =>
      simp [hn] at hset
      subst hset
      unfold startupOrScram at hcond
      obtain ⟨st, hst, h4⟩ := Run.bind_eq_ok hcond
      cases st with
      | true => simp [rewritePair, hreq, startupOrScram, hst, setFirstData]
      | false =>
        simp at h4
        obtain ⟨sd, hsd, hcs⟩ := Run.bind_eq_ok h4
        unfold scramOverPassword at hgood
        simp [hreq, hsd, hst, hcs] at hgood
        cases hd : (PostgresDecoder reqData).1.data with
        | nil => exact absurd hd hgood.2
        | cons b rest =>
          have hb : b ≠ 112 := by
            have := hgood.1
            simp [hd] at this
            exact this
          simp [rewritePair, hreq, startupOrScram, hst, firstData_set, checkScram_md5AuthRequest,
            index, hd, hb]
  | false =>
    simp only [Bool.false_eq_true, if_false] at h2
    obtain ⟨tag, htag, h3⟩ := Run.bind_eq_ok h2
    by_cases ht : tag = 112
    · simp only [ht, if_true] at h3
      obtain ⟨req2, hset1, h4⟩ := Run.bind_eq_ok h3
      obtain ⟨resp2, hset2, h5⟩ := Run.bind_eq_ok h4
      simp at h5
      subst h5
      unfold setFirstData at hset1 hset2
      cases hm : req.Message with
      | nil => simp [hm] at hset1
      | cons m ms =>
        cases hn : resp.Message with
        | nil => simp [hn] at hset2
        | cons n ns =>
          simp [hm] at hset1
          simp [hn] at hset2
          subst hset1
          subst hset2
          simp [rewritePair, firstData_set, startupOrScram, isStartupPacket_md5PasswordMessage,
            checkScram_md5PasswordResponse, tag_md5PasswordMessage, setFirstData]
    · simp only [ht, if_false] at h3
      simp at h3
      subst h3
      exact h0

/-! ## `ChangeAuthToMD5`: mocks and pools -/

theorem rewriteMessages_cons_ok {req : GenericPayload} {reqs resps : List GenericPayload}
    {out : List GenericPayload × List GenericPayload}
    (h : rewriteMessages (req :: reqs) resps = Run.ok out) :
    ∃ resp rest pr tl, resps = resp :: rest ∧ rewritePair req resp = Run.ok pr ∧
      rewriteMessages reqs rest = Run.ok tl ∧ out = (pr.1 :: tl.1, pr.2 :: tl.2) := by
  cases resps with
  | nil => simp [rewriteMessages] at h
  | cons resp rest =>
    unfold rewriteMessages at h
    obtain ⟨pr, hpr, h2⟩ := Run.bind_eq_ok h
    obtain ⟨tl, htl, h3⟩ := Run.bind_eq_ok h2
    simp at h3
    exact ⟨resp, rest, pr, tl, rfl, hpr, htl, h3.symm⟩

theorem rewriteMessages_getElem (reqs resps : List GenericPayload)
    (out : List GenericPayload × List GenericPayload)
    (h : rewriteMessages reqs resps = Run.ok out) (j : Nat) (req resp : GenericPayload)
    (hreq : reqs[j]? = some req) (hresp : resps[j]? = some resp) :
    ∃ pr, rewritePair req resp = Run.ok pr ∧ out.1[j]? = some pr.1 ∧ out.2[j]? = some pr.2 := by
  induction reqs generalizing resps out j with
  | nil => simp at hreq
  | cons r reqs ih =>
    obtain ⟨resp0, rest, pr, tl, hres, hpr, htl, hout⟩ := rewriteMessages_cons_ok h
    subst hres
    subst hout
    cases j with
    | zero =>
      simp at hreq hresp
      subst hreq
      subst hresp
      exact ⟨pr, hpr, by simp, by simp⟩
    | succ j =>
      simp at hreq hresp
      obtain ⟨pr2, h1, h2, h3⟩ := ih rest tl htl j hreq hresp
      exact ⟨pr2, h1, by simpa using h2, by simpa using h3⟩

theorem rewriteMessages_idem (reqs resps : List GenericPayload)
    (out : List GenericPayload × List GenericPayload)
    (h : rewriteMessages reqs resps = Run.ok out)
    (hgood : ∀ (j : Nat) (req resp : GenericPayload), reqs[j]? = some req →
      resps[j]? = some resp → scramOverPassword req resp = false) :
    rewriteMessages out.1 out.2 = Run.ok out := by
  induction reqs generalizing resps out with
  | nil =>
    simp [rewriteMessages] at h
    subst h
    simp [rewriteMessages]
  | cons r reqs ih =>
    obtain ⟨resp0, rest, pr, tl, hres, hpr, htl, hout⟩ := rewriteMessages_cons_ok h
    subst hres
    subst hout
    have h1 := rewritePair_idem r resp0 pr hpr (hgood 0 r resp0 (by simp) (by simp))
    have h2 := ih rest tl htl (fun j a b ha hb => hgood (j + 1) a b (by simpa using ha)
      (by simpa using hb))
    simp [rewriteMessages, h1, h2]

theorem ChangeAuthToMD5_cons_ok {p : Option Mock} {rest pool2 : Pool}
    (h : ChangeAuthToMD5 (p :: rest) = Run.ok pool2) :
    ∃ mock r rest2, p = some mock ∧
      rewriteMessages mock.Spec.GenericRequests mock.Spec.GenericResponses = Run.ok r ∧
      ChangeAuthToMD5 rest = Run.ok rest2 ∧
      pool2 = some { mock with Spec := { mock.Spec with GenericRequests := r.1,
                                                         GenericResponses := r.2 } } :: rest2 := by
  unfold ChangeAuthToMD5 at h
  obtain ⟨p2, hp2, h2⟩ := Run.bind_eq_ok h
  obtain ⟨rest2, hrest, h3⟩ := Run.bind_eq_ok h2
  unfold rewriteMock at hp2
  obtain ⟨mock, hm, h4⟩ := Run.bind_eq_ok hp2
  obtain ⟨r, hr, h5⟩ := Run.bind_eq_ok h4
  simp at h3 h5
  exact ⟨mock, r, rest2, deref_eq_ok hm, hr, hrest, by rw [← h3, ← h5]⟩

theorem ChangeAuthToMD5_getElem (pool pool2 : Pool) (h : ChangeAuthToMD5 pool = Run.ok pool2)
    (i : Nat) (mock : Mock) (hi : pool[i]? = some (some mock)) :
    ∃ r, rewriteMessages mock.Spec.GenericRequests mock.Spec.GenericResponses = Run.ok r ∧
      pool2[i]? = some (some { mock with Spec := { mock.Spec with GenericRequests := r.1,
                                                                   GenericResponses := r.2 } }) := by
  induction pool generalizing pool2 i with
  | nil => simp at hi
  | cons p rest ih =>
    obtain ⟨m0, r, rest2, hp, hr, hrest, hout⟩ := ChangeAuthToMD5_cons_ok h
    subst hout
    cases i with
    | zero =>
      simp [hp] at hi
      subst hi
      exact ⟨r, hr, by simp⟩
    | succ i =>
      simp at hi
      obtain ⟨r2, h1, h2⟩ := ih rest2 hrest i hi
      exact ⟨r2, h1, by simpa using h2⟩

theorem ChangeAuthToMD5_idem (pool pool2 : Pool) (h : ChangeAuthToMD5 pool = Run.ok pool2)
    (hgood : ∀ (i : Nat) (mock : Mock), pool[i]? = some (some mock) →
      ∀ (j : Nat) (req resp : GenericPayload), mock.Spec.GenericRequests[j]? = some req →
        mock.Spec.GenericResponses[j]? = some resp → scramOverPassword req resp = false) :
    ChangeAuthToMD5 pool2 = Run.ok pool2 := by
  induction pool generalizing pool2 with
  | nil =>
    simp [ChangeAuthToMD5] at h
    subst h
    rfl
  | cons p rest ih =>
    obtain ⟨m0, r, rest2, hp, hr, hrest, hout⟩ := ChangeAuthToMD5_cons_ok h
    subst hout
    subst hp
    have h1 := rewriteMessages_idem _ _ r hr (hgood 0 m0 (by simp))
    have h2 := ih rest2 hrest (fun i mock hi => hgood (i + 1) mock (by simpa using hi))
    simp [ChangeAuthToMD5, rewriteMock, h1, h2]

/-! ## The claims about `Fuzzymatch` and its helpers -/

theorem exactEq_iff (m : Mock) (reqBuff : GoBytes) :
    exactEq m reqBuff = true ↔
      ((PostgresDecoder m.Spec.PostgresReq.Payload).1.data = reqBuff ∨
        m.Spec.PostgresReq.Payload = PostgresEncoder reqBuff) := by
  simp [exactEq]

/-- C1.  If some mock of the pool records the request buffer, that is, the bytes
`PostgresDecoder` returns for its payload (none when the text is not base64)
equal the buffer or its payload equals the base64 text of the buffer, then
`Fuzzymatch` returns `true` with the response payload of the first such mock in
pool order, and the pool given to `SetTcsMocks` is the input pool without the
entry at that index. -/
theorem Fuzzymatch_returns_first_exact_match (ms : List Mock) (reqBuff : GoBytes)
    (h : ∃ m ∈ ms, (PostgresDecoder m.Spec.PostgresReq.Payload).1.data = reqBuff ∨
      m.Spec.PostgresReq.Payload = PostgresEncoder reqBuff) :
    ∃ (i : Nat) (m : Mock), ms[i]? = some m ∧
      ((PostgresDecoder m.Spec.PostgresReq.Payload).1.data = reqBuff ∨
        m.Spec.PostgresReq.Payload = PostgresEncoder reqBuff) ∧
      (∀ (j : Nat) (x : Mock), j < i → ms[j]? = some x →
        ¬ ((PostgresDecoder x.Spec.PostgresReq.Payload).1.data = reqBuff ∨
          x.Spec.PostgresReq.Payload = PostgresEncoder reqBuff)) ∧
      Fuzzymatch (ms.map some) reqBuff
        = Run.ok ⟨true, m.Spec.PostgresResp.Payload,
            some ((ms.map some).take i ++ (ms.map some).drop (i + 1))⟩ := by
  have h2 : ∃ m ∈ ms, exactEq m reqBuff = true := by
    obtain ⟨m, hm, hc⟩ := h
    exact ⟨m, hm, (exactEq_iff m reqBuff).mpr hc⟩
  obtain ⟨i, m, hi, hm, hlow, hrun⟩ := Fuzzymatch_exact ms reqBuff h2
  refine ⟨i, m, hi, (exactEq_iff m reqBuff).mp hm, ?_, ?_⟩
  · intro j x hj hx hc
    have := hlow j x hj hx
    rw [(exactEq_iff x reqBuff).mpr hc] at this
    exact Bool.noConfusion this
  · rw [hrun, removeAt_eq]

/-- Witness of C1: with two mocks recording `X`, the request `X` is answered by
the first of them and the second stays in the pool. -/
theorem Fuzzymatch_returns_first_exact_match_witness :
    ∃ (i : Nat) (m : Mock), twoMocksForX[i]? = some m ∧
      ((PostgresDecoder m.Spec.PostgresReq.Payload).1.data = ascii "X" ∨
        m.Spec.PostgresReq.Payload = PostgresEncoder (ascii "X")) ∧
      (∀ (j : Nat) (x : Mock), j < i → twoMocksForX[j]? = some x →
        ¬ ((PostgresDecoder x.Spec.PostgresReq.Payload).1.data = ascii "X" ∨
          x.Spec.PostgresReq.Payload = PostgresEncoder (ascii "X"))) ∧
      Fuzzymatch (twoMocksForX.map some) (ascii "X")
        = Run.ok ⟨true, m.Spec.PostgresResp.Payload,
            some ((twoMocksForX.map some).take i ++ (twoMocksForX.map some).drop (i + 1))⟩ :=
  Fuzzymatch_returns_first_exact_match twoMocksForX (ascii "X")
    ⟨postgresMock "mockA" "WA==" "cmVzcEE=", by decide, Or.inl (by decide)⟩

/-- C3.  The code at the failing input: asked for `xyz` among the candidates
`abc` and `xyz`, `findStringMatch` returns index 0, although the candidate at
index 1 is at distance 0 from the request and the one at index 0 at distance 3. -/
theorem findStringMatch_returns_zero_for_later_exact_candidate :
    findStringMatch (ascii "xyz") [ascii "abc", ascii "xyz"] = 0 ∧
      ComputeDistance (ascii "xyz") (ascii "abc") = 3 ∧
      ComputeDistance (ascii "xyz") (ascii "xyz") = 0 ∧
      IsAsciiPrintable (ascii "abc") = true ∧ IsAsciiPrintable (ascii "xyz") = true := by
  decide

/-- C5.  On every pool of mocks `findBinaryMatch` returns -1 exactly when the
pool is empty, and otherwise the lowest index at which the Jaccard similarity
of the shingles of the decoded request and of the buffer, for the shingle
length `AdaptiveK(len(reqBuff), 3, 8, 5)`, is largest. -/
theorem findBinaryMatch_returns_lowest_maximum (ms : List Mock) (reqBuff : GoBytes) :
    ∃ (k : Int) (shingles2 : Finset GoString) (sim : Mock → ℚ) (r : Int),
      AdaptiveK (reqBuff.length : Int) 3 8 5 = Run.ok k ∧
      CreateShingles reqBuff k = Run.ok shingles2 ∧
      (∀ m : Mock, ∃ shingles1 : Finset GoString,
        CreateShingles (PostgresDecoder m.Spec.PostgresReq.Payload).1.data k = Run.ok shingles1 ∧
        sim m = JaccardSimilarity shingles1 shingles2) ∧
      findBinaryMatch (ms.map some) reqBuff = Run.ok r ∧
      (r = -1 ↔ ms = []) ∧
      (ms ≠ [] → ∃ (i : Nat) (m : Mock), ms[i]? = some m ∧ r = (i : Int) ∧
        (∀ x ∈ ms, sim x ≤ sim m) ∧
        (∀ (j : Nat) (x : Mock), j < i → ms[j]? = some x → sim x < sim m)) := by
  obtain ⟨k, s2, sim, hk, hs2, hs1, hpos, hsim⟩ := exists_similarity reqBuff
  obtain ⟨r, hr, hiff, hmax⟩ := findBinaryMatch_spec reqBuff sim hpos hsim ms
  exact ⟨k, s2, sim, r, hk, hs2, hs1, hr, hiff, hmax⟩

/-- C6.  On every pool of mocks `Fuzzymatch` returns, it reports `found = false`
exactly when the pool is empty, and for a non-empty pool the response it
returns is the response payload of a mock of the pool. -/
theorem Fuzzymatch_misses_only_on_empty_pool (ms : List Mock) (reqBuff : GoBytes) :
    ∃ r : MatchResult GoString, Fuzzymatch (ms.map some) reqBuff = Run.ok r ∧
      (r.found = false ↔ ms = []) ∧
      (ms ≠ [] → r.found = true ∧ ∃ m ∈ ms, r.response = m.Spec.PostgresResp.Payload) := by
  obtain ⟨r, hr, hiff, hresp⟩ := Fuzzymatch_total ms reqBuff
  refine ⟨r, hr, hiff, fun hne => ⟨?_, hresp hne⟩⟩
  cases hf : r.found with
  | true => rfl
  | false => exact absurd (hiff.mp hf) hne

/-! ## The claims about `matchingPg` -/

/-- C4.  The code at the failing input: the pool holds a mock recording `A`, `X`
and then a mock recording `A`, `B`, and the incoming buffers are `A`, `B`.  The
first tier returns the responses of the first mock, whose second request
matches the second buffer in neither form, and leaves the second mock, which
matches at both positions, in the pool. -/
theorem matchingPg_selects_on_first_matching_position :
    matchingPg (twoStreams.map some) [ascii "A", ascii "B"]
        = Run.ok ⟨true, [payloadOf "cjA="],
            some [some (genericMock "m1" ["QQ==", "Qg=="] ["cjE="])]⟩ ∧
      (PostgresDecoder (ascii "WA==")).1.data ≠ ascii "B" ∧
      ascii "WA==" ≠ EncodeToString (ascii "B") ∧
      (PostgresDecoder (ascii "Qg==")).1.data = ascii "B" := by
  decide

/-- C7, as stated, fails: a pool of one mock that records a single request is
not empty, yet for two incoming buffers `matchingPg` reports no match. -/
theorem matchingPg_misses_on_nonempty_pool :
    oneRequestStream.map some ≠ [] ∧
      matchingPg (oneRequestStream.map some) [ascii "A", ascii "B"]
        = Run.ok ⟨false, [], none⟩ := by
  decide

/-- C7, amended.  On every pool of mocks whose recorded requests all carry at
least one message, `matchingPg` returns; it reports `found = true` exactly when
there is at least one incoming buffer and some mock of the pool records as many
requests as there are buffers, and then the responses it returns are the
recorded responses of a mock of the pool. -/
theorem matchingPg_finds_iff_some_mock_has_the_request_count (ms : List Mock)
    (requestBuffers : List GoBytes)
    (hwf : ∀ m ∈ ms, ∀ g ∈ m.Spec.GenericRequests, g.Message ≠ []) :
    ∃ r : MatchResult (List GenericPayload),
      matchingPg (ms.map some) requestBuffers = Run.ok r ∧
      (r.found = true ↔ (requestBuffers ≠ [] ∧
        ∃ m ∈ ms, m.Spec.GenericRequests.length = requestBuffers.length)) ∧
      (r.found = true → ∃ m ∈ ms, r.response = m.Spec.GenericResponses) :=
  matchingPg_map_some ms requestBuffers hwf

/-- Witness of the amended C7 on the pool of two recorded exchanges. -/
theorem matchingPg_finds_iff_some_mock_has_the_request_count_witness :
    (∀ m ∈ twoStreams, ∀ g ∈ m.Spec.GenericRequests, g.Message ≠ []) ∧
    ∃ r : MatchResult (List GenericPayload),
      matchingPg (twoStreams.map some) [ascii "B", ascii "A"] = Run.ok r ∧
      (r.found = true ↔ (([ascii "B", ascii "A"] : List GoBytes) ≠ [] ∧
        ∃ m ∈ twoStreams,
          m.Spec.GenericRequests.length = ([ascii "B", ascii "A"] : List GoBytes).length)) ∧
      (r.found = true → ∃ m ∈ twoStreams, r.response = m.Spec.GenericResponses) :=
  ⟨by decide,
    matchingPg_finds_iff_some_mock_has_the_request_count twoStreams [ascii "B", ascii "A"]
      (by decide)⟩

/-- C8.  Whenever `Fuzzymatch` or `matchingPg` returns with `found = true`, the
response is that of the mock at some index of the input pool and `SetTcsMocks`
received the input pool without the entry at that index, the other entries in
their order; whenever either returns with `found = false`, `SetTcsMocks` was
not called. -/
theorem match_consumes_exactly_one_mock (pool : Pool) :
    (∀ (reqBuff : GoBytes) (r : MatchResult GoString), Fuzzymatch pool reqBuff = Run.ok r →
      (r.found = true → ∃ (idx : Nat) (mock : Mock), pool[idx]? = some (some mock) ∧
        r.response = mock.Spec.PostgresResp.Payload ∧
        r.setTcsMocks = some (pool.take idx ++ pool.drop (idx + 1))) ∧
      (r.found = false → r.setTcsMocks = none)) ∧
    (∀ (requestBuffers : List GoBytes) (r : MatchResult (List GenericPayload)),
      matchingPg pool requestBuffers = Run.ok r →
      (r.found = true → ∃ (idx : Nat) (mock : Mock), pool[idx]? = some (some mock) ∧
        r.response = mock.Spec.GenericResponses ∧
        r.setTcsMocks = some (pool.take idx ++ pool.drop (idx + 1))) ∧
      (r.found = false → r.setTcsMocks = none)) := by
  constructor
  · intro reqBuff r h
    rcases Fuzzymatch_consumes pool reqBuff r h with ⟨hf, idx, mock, h1, h2, h3⟩ | ⟨hf, hs⟩
    · refine ⟨fun _ => ⟨idx, mock, h1, h2, ?_⟩, fun hc => ?_⟩
      · rw [h3, removeAt_eq]
      · rw [hf] at hc
        exact Bool.noConfusion hc
    · refine ⟨fun hc => ?_, fun _ => hs⟩
      rw [hf] at hc
      exact Bool.noConfusion hc
  · intro bufs r h
    rcases matchingPg_consumes pool bufs r h with ⟨hf, idx, mock, h1, h2, h3⟩ | ⟨hf, hs⟩
    · refine ⟨fun _ => ⟨idx, mock, h1, h2, ?_⟩, fun hc => ?_⟩
      · rw [h3, removeAt_eq]
      · rw [hf] at hc
        exact Bool.noConfusion hc
    · refine ⟨fun hc => ?_, fun _ => hs⟩
      rw [hf] at hc
      exact Bool.noConfusion hc

/-- Witness of C8: one run of each matcher that finds a mock, and one of
`matchingPg` that finds none. -/
theorem match_consumes_exactly_one_mock_witness :
    (∃ (idx : Nat) (mock : Mock), (twoMocksForX.map some)[idx]? = some (some mock) ∧
      ascii "cmVzcEE=" = mock.Spec.PostgresResp.Payload ∧
      some [some (postgresMock "mockB" "WA==" "cmVzcEI=")]
        = some ((twoMocksForX.map some).take idx ++ (twoMocksForX.map some).drop (idx + 1))) ∧
    (∃ (idx : Nat) (mock : Mock), (twoStreams.map some)[idx]? = some (some mock) ∧
      [payloadOf "cjA="] = mock.Spec.GenericResponses ∧
      some [some (genericMock "m1" ["QQ==", "Qg=="] ["cjE="])]
        = some ((twoStreams.map some).take idx ++ (twoStreams.map some).drop (idx + 1))) ∧
    (none : Option Pool) = none :=
  ⟨((match_consumes_exactly_one_mock (twoMocksForX.map some)).1 (ascii "X")
      ⟨true, ascii "cmVzcEE=", some [some (postgresMock "mockB" "WA==" "cmVzcEI=")]⟩
      (by decide)).1 rfl,
    ((match_consumes_exactly_one_mock (twoStreams.map some)).2 [ascii "A", ascii "B"]
      ⟨true, [payloadOf "cjA="], some [some (genericMock "m1" ["QQ==", "Qg=="] ["cjE="])]⟩
      (by decide)).1 rfl,
    ((match_consumes_exactly_one_mock (oneRequestStream.map some)).2 [ascii "A", ascii "B"]
      ⟨false, [], none⟩ (by decide)).2 rfl⟩

/-! ## The loop of `DecodeSASL` -/

theorem indexByte_range (a : GoBytes) (c : Nat) :
    indexByte a c = -1 ∨ (0 ≤ indexByte a c ∧ indexByte a c < (a.length : Int)) := by
  induction a with
  | nil => exact Or.inl rfl
  | cons b rest ih =>
    unfold indexByte
    by_cases hb : b = c
    · simp [hb]
    · simp only [hb, if_false]
      rcases ih with h | ⟨h1, h2⟩
      · simp [h]
      · have hne : indexByte rest c ≠ -1 := by omega
        simp only [hne, if_false, List.length_cons]
        right
        push_cast
        omega

/-- One more unit of fuel than the length of `authMechanisms` changes nothing. -/
theorem saslLoop_succ (fuel : Nat) (a : GoBytes) (acc : List GoString) (h : a.length ≤ fuel) :
    saslLoop (fuel + 1) a acc = saslLoop fuel a acc := by
  induction fuel generalizing a acc with
  | zero =>
    have ha : a.length = 0 := by omega
    simp [saslLoop, ha]
  | succ fuel ih =>
    rw [saslLoop, saslLoop]
    by_cases hlen : a.length > 1
    · simp only [hlen, if_true]
      by_cases hidx : indexByte a 0 > 0
      · simp only [hidx, if_true]
        apply ih
        rcases indexByte_range a 0 with h1 | ⟨_, h2⟩
        · omega
        · simp only [List.length_drop]
          omega
      · simp only [hidx, if_false]
    · simp only [hlen, if_false]

/-- The fuel that `DecodeSASL` passes is enough: any larger fuel gives the same
outcome, so `Run.hang` arises only from an iteration that changes nothing. -/
theorem saslLoop_fuel (extra : Nat) (a : GoBytes) (acc : List GoString) :
    saslLoop (a.length + extra) a acc = saslLoop a.length a acc := by
  induction extra with
  | zero => rfl
  | succ extra ih =>
    rw [← ih]
    exact saslLoop_succ (a.length + extra) a acc (by omega)

/-- The MD5 authentication request is an `R` frame of length 12 with
authentication code 5 and a four-byte salt. -/
theorem md5AuthRequest_decodes :
    DecodeString md5AuthRequest = some [82, 0, 0, 0, 12, 0, 0, 0, 5, 224, 143, 1, 30] := by
  decide

/-! ## The claims about `ChangeAuthToMD5` -/

set_option maxRecDepth 100000 in
/-- C2, as stated, fails: for a request with tag `p` paired with a SCRAM
response the first pass replaces the response only, and the second pass then
replaces the request and the response again. -/
theorem ChangeAuthToMD5_second_pass_differs :
    ChangeAuthToMD5 passwordAnsweredByScram
        = Run.ok [some (genericMock "auth" [passwordRequest] [md5AuthRequestText])] ∧
      ChangeAuthToMD5 [some (genericMock "auth" [passwordRequest] [md5AuthRequestText])]
        = Run.ok [some (genericMock "auth" [md5PasswordMessageText] [md5PasswordResponseText])] ∧
      genericMock "auth" [passwordRequest] [md5AuthRequestText]
        ≠ genericMock "auth" [md5PasswordMessageText] [md5PasswordResponseText] := by
  decide

/-- C2, amended.  If `ChangeAuthToMD5` returns on a pool in which no position
pairs a response detected as SCRAM with a request that is not a startup packet
and is empty or starts with the tag `p`, then it returns on its own result and
leaves every request and response of every mock as the first pass produced it. -/
theorem ChangeAuthToMD5_idempotent (pool pool2 : Pool)
    (hrun : ChangeAuthToMD5 pool = Run.ok pool2)
    (hgood : ∀ (i : Nat) (mock : Mock), pool[i]? = some (some mock) →
      ∀ (j : Nat) (req resp : GenericPayload), mock.Spec.GenericRequests[j]? = some req →
        mock.Spec.GenericResponses[j]? = some resp → scramOverPassword req resp = false) :
    ChangeAuthToMD5 pool2 = Run.ok pool2 :=
  ChangeAuthToMD5_idem pool pool2 hrun hgood

set_option maxRecDepth 100000 in
/-- Witness of the amended C2: the recorded password exchange is rewritten to
the fixed pair, and a second pass leaves the fixed pair as it is. -/
theorem ChangeAuthToMD5_idempotent_witness :
    ChangeAuthToMD5 passwordExchange
        = Run.ok [some (genericMock "pw" [md5PasswordMessageText] [md5PasswordResponseText])] ∧
      ChangeAuthToMD5 [some (genericMock "pw" [md5PasswordMessageText] [md5PasswordResponseText])]
        = Run.ok [some (genericMock "pw" [md5PasswordMessageText] [md5PasswordResponseText])] :=
  ⟨by decide,
    ChangeAuthToMD5_idempotent passwordExchange _ (by decide) (by
      intro i mock hi j req resp hreq hresp
      cases i with
      | zero =>
        simp [passwordExchange] at hi
        subst hi
        cases j with
        | zero =>
          simp [genericMock] at hreq hresp
          subst hreq
          subst hresp
          decide
        | succ j => simp [genericMock] at hreq
      | succ i => simp [passwordExchange] at hi)⟩

set_option maxRecDepth 100000 in
/-- C9.  The code at the failing inputs.  The response of the first pool is
detected as SCRAM, but its request decodes to five bytes in a buffer of
capacity six, so `isStartupPacket` panics on `packet[4:8]` before `checkScram`
is consulted; in the second pool the same panic on the first mock stops the
pass before the startup packet of the second mock is reached. -/
theorem ChangeAuthToMD5_panics_on_short_request :
    checkScram (ascii scramResponse) = Run.ok true ∧
      PostgresDecoder (ascii terminateRequest) = (⟨[88, 0, 0, 0, 4], 6⟩, false) ∧
      isStartupPacket (PostgresDecoder (ascii terminateRequest)).1 = Run.panic ∧
      ChangeAuthToMD5 terminateAnsweredByScram = Run.panic ∧
      isStartupPacket (PostgresDecoder (ascii startupRequest)).1 = Run.ok true ∧
      ChangeAuthToMD5 terminateThenStartup = Run.panic := by
  decide

/-- Where the pass returns, it does what C9 says: at every position whose
condition `isStartupPacket(encode) || checkScram(...)` is true the request is
kept and the first message of the response holds the MD5 authentication
request. -/
theorem ChangeAuthToMD5_auth (pool pool2 : Pool) (hrun : ChangeAuthToMD5 pool = Run.ok pool2)
    (i : Nat) (mock : Mock) (j : Nat) (req resp : GenericPayload) (reqData : GoString)
    (hi : pool[i]? = some (some mock))
    (hreq : mock.Spec.GenericRequests[j]? = some req)
    (hresp : mock.Spec.GenericResponses[j]? = some resp)
    (hdata : firstData req = Run.ok reqData)
    (hcond : startupOrScram (PostgresDecoder reqData).1 resp = Run.ok true) :
    ∃ (mock2 : Mock) (resp2 : GenericPayload), pool2[i]? = some (some mock2) ∧
      mock2.Spec.GenericRequests[j]? = some req ∧
      mock2.Spec.GenericResponses[j]? = some resp2 ∧
      setFirstData resp md5AuthRequest = Run.ok resp2 ∧
      firstData resp2 = Run.ok md5AuthRequest := by
  obtain ⟨r, hr, hget⟩ := ChangeAuthToMD5_getElem pool pool2 hrun i mock hi
  obtain ⟨pr, hpr, h1, h2⟩ := rewriteMessages_getElem _ _ r hr j req resp hreq hresp
  obtain ⟨hp1, hp2, hp3⟩ := rewritePair_auth req resp reqData hdata hcond pr hpr
  refine ⟨_, pr.2, hget, ?_, h2, hp3, hp2⟩
  rw [← hp1]
  exact h1

set_option maxRecDepth 100000 in
/-- C10, as stated, fails: the request has tag `p`, but its response is
detected as SCRAM, so the pass replaces the response by the MD5 authentication
request and leaves the request as recorded. -/
theorem ChangeAuthToMD5_keeps_password_request_under_scram :
    (PostgresDecoder (ascii passwordRequest)).1.data.head? = some 112 ∧
      ChangeAuthToMD5 passwordAnsweredByScram
        = Run.ok [some (genericMock "auth" [passwordRequest] [md5AuthRequestText])] ∧
      ascii passwordRequest ≠ md5PasswordMessage ∧
      md5AuthRequest ≠ md5PasswordResponse := by
  decide

/-- C10, amended.  If `ChangeAuthToMD5` returns, then at every position whose
decoded request starts with the tag `p`, is not a startup packet and whose
response is not detected as SCRAM, the loop body returns and the first message
of the request holds the fixed MD5 password message and the first message of
the response the fixed reply to it; nothing else of the two payloads is
changed. -/
theorem ChangeAuthToMD5_rewrites_password_exchange (pool pool2 : Pool)
    (hrun : ChangeAuthToMD5 pool = Run.ok pool2)
    (i : Nat) (mock : Mock) (j : Nat) (req resp : GenericPayload) (reqData respData : GoString)
    (hi : pool[i]? = some (some mock))
    (hreq : mock.Spec.GenericRequests[j]? = some req)
    (hresp : mock.Spec.GenericResponses[j]? = some resp)
    (hreqData : firstData req = Run.ok reqData)
    (hrespData : firstData resp = Run.ok respData)
    (hstart : isStartupPacket (PostgresDecoder reqData).1 = Run.ok false)
    (hscram : checkScram respData = Run.ok false)
    (htag : (PostgresDecoder reqData).1.data.head? = some 112) :
    ∃ (mock2 : Mock) (req2 resp2 : GenericPayload), pool2[i]? = some (some mock2) ∧
      mock2.Spec.GenericRequests[j]? = some req2 ∧
      mock2.Spec.GenericResponses[j]? = some resp2 ∧
      firstData req2 = Run.ok md5PasswordMessage ∧
      firstData resp2 = Run.ok md5PasswordResponse ∧
      setFirstData req md5PasswordMessage = Run.ok req2 ∧
      setFirstData resp md5PasswordResponse = Run.ok resp2 ∧
      rewritePair req resp = Run.ok (req2, resp2) := by
  obtain ⟨r, hr, hget⟩ := ChangeAuthToMD5_getElem pool pool2 hrun i mock hi
  obtain ⟨pr, hpr, h1, h2⟩ := rewriteMessages_getElem _ _ r hr j req resp hreq hresp
  obtain ⟨req2, resp2, hrun2, hs1, hs2, hd1, hd2⟩ :=
    rewritePair_password req resp reqData respData hreqData hrespData hstart hscram htag
  rw [hrun2] at hpr
  have hpr2 : (req2, resp2) = pr := by
    injection hpr
  subst hpr2
  exact ⟨_, req2, resp2, hget, h1, h2, hd1, hd2, hs1, hs2, hrun2⟩

set_option maxRecDepth 100000 in
/-- Witness of the amended C10 on the recorded password exchange. -/
theorem ChangeAuthToMD5_rewrites_password_exchange_witness :
    ∃ (mock2 : Mock) (req2 resp2 : GenericPayload),
      ([some (genericMock "pw" [md5PasswordMessageText] [md5PasswordResponseText])] : Pool)[0]?
        = some (some mock2) ∧
      mock2.Spec.GenericRequests[0]? = some req2 ∧
      mock2.Spec.GenericResponses[0]? = some resp2 ∧
      firstData req2 = Run.ok md5PasswordMessage ∧
      firstData resp2 = Run.ok md5PasswordResponse ∧
      setFirstData (payloadOf passwordRequest) md5PasswordMessage = Run.ok req2 ∧
      setFirstData (payloadOf readyResponse) md5PasswordResponse = Run.ok resp2 ∧
      rewritePair (payloadOf passwordRequest) (payloadOf readyResponse) = Run.ok (req2, resp2) :=
  ChangeAuthToMD5_rewrites_password_exchange passwordExchange
    [some (genericMock "pw" [md5PasswordMessageText] [md5PasswordResponseText])]
    (by decide) 0 (genericMock "pw" [passwordRequest] [readyResponse]) 0
    (payloadOf passwordRequest) (payloadOf readyResponse) (ascii passwordRequest)
    (ascii readyResponse) (by decide) (by decide) (by decide) (by decide) (by decide)
    (by decide) (by decide) (by decide)

/-! ## The claims about `IdentifyPacket` -/

theorem getD_lt_of_forall {l : List Nat} (h : ∀ x ∈ l, x < 256) (i : Nat) : l.getD i 0 < 256 := by
  rw [List.getD_eq_getElem?_getD]
  cases hi : l[i]? with
  | none => simp
  | some x =>
    simp only [Option.getD_some]
    exact h x (mem_of_getElem?_eq hi)

theorem be32_lt {l : List Nat} (h : ∀ x ∈ l, x < 256) : be32 l < 4294967296 := by
  unfold be32
  have h0 := getD_lt_of_forall h 0
  have h1 := getD_lt_of_forall h 1
  have h2 := getD_lt_of_forall h 2
  have h3 := getD_lt_of_forall h 3
  omega

theorem Buffer.slice_eq_ok {b : Buffer} {low high : Nat} {out : GoBytes}
    (h : b.slice low high = Run.ok out) :
    low ≤ high ∧ high ≤ b.cap ∧ out = ((b.data ++ b.spare).take high).drop low := by
  unfold Buffer.slice at h
  split at h
  · rename_i hc
    simp at h
    exact ⟨hc.1, hc.2, h.symm⟩
  · simp at h

/-- What a regular result of `IdentifyPacket` looks like. -/
theorem IdentifyPacket_regular_spec (b : Buffer) (hbytes : ∀ x ∈ b.data, x < 256)
    (identifier length : Nat) (payload : GoBytes)
    (h : IdentifyPacket b
      = Run.ok (some (Packet.RegularPacket identifier length payload), none)) :
    b.data[4]? = some identifier ∧ length = be32 (b.data.take 4) ∧
      payload = (b.data.take (length + 1)).drop 5 ∧ 4 ≤ length ∧
      payload.length = length - 4 ∧ length + 1 ≤ b.data.length := by
  unfold IdentifyPacket at h
  by_cases hshort : b.data.length < 4
  · simp [hshort] at h
  · simp only [hshort, if_false] at h
    obtain ⟨startup, _, h2⟩ := Run.bind_eq_ok h
    cases startup with
    | true =>
      simp only [if_true] at h2
      obtain ⟨v, _, h3⟩ := Run.bind_eq_ok h2
      simp at h3
    | false =>
      simp only [Bool.false_eq_true, if_false] at h2
      by_cases hg : b.data.length > 5 ∧ b.data.length ≥ be32 (b.data.take 4) + 1
      · simp only [hg, and_self, if_true] at h2
        obtain ⟨ident, hident, h3⟩ := Run.bind_eq_ok h2
        obtain ⟨pl, hpl, h4⟩ := Run.bind_eq_ok h3
        simp at h4
        obtain ⟨h41, h42, h43⟩ := h4
        obtain ⟨hlo, hhi, hout⟩ := Buffer.slice_eq_ok hpl
        have hlt : be32 (b.data.take 4) < 4294967296 :=
          be32_lt (fun x hx => hbytes x (List.mem_of_mem_take hx))
        have hmod : (be32 (b.data.take 4) + 1) % 4294967296 = be32 (b.data.take 4) + 1 := by
          by_cases hmax : be32 (b.data.take 4) + 1 = 4294967296
          · rw [hmax] at hlo
            simp at hlo
          · exact Nat.mod_eq_of_lt (by omega)
        rw [hmod] at hout hlo
        have hget := (index_eq_ok hident).2
        subst h42
        have htake : (b.data ++ b.spare).take (be32 (b.data.take 4) + 1)
            = b.data.take (be32 (b.data.take 4) + 1) :=
          List.take_append_of_le_length hg.2
        rw [htake] at hout
        refine ⟨by simpa [h41] using hget, rfl, by rw [← h43, hout], by omega, ?_, hg.2⟩
        rw [← h43, hout, List.length_drop, List.length_take]
        omega
      · simp only [hg, if_false] at h2
        simp at h2

/-- C11, as stated, fails: the buffer declares length 5 and is classified as a
regular packet, but its payload is the single byte `data[5:6]`, not the five
bytes `data[5:10]`. -/
theorem IdentifyPacket_payload_is_not_length_bytes :
    IdentifyPacket regularSample = Run.ok (some (Packet.RegularPacket 81 5 [65]), none) ∧
      ([65] : GoBytes).length ≠ 5 ∧
      ([65] : GoBytes) ≠ (regularSample.data.drop 5).take 5 := by
  decide

/-- C11, amended.  For every buffer of bytes that `IdentifyPacket` classifies as
a regular packet, the packet has `Identifier = data[4]`, `Length` the
big-endian value of `data[0:4]`, and `Payload = data[5 : Length+1]`, which is
`Length - 4` bytes, with `4 <= Length` and `Length + 1 <= len(data)`. -/
theorem IdentifyPacket_regular_fields (b : Buffer) (hbytes : ∀ x ∈ b.data, x < 256)
    (identifier length : Nat) (payload : GoBytes)
    (h : IdentifyPacket b
      = Run.ok (some (Packet.RegularPacket identifier length payload), none)) :
    b.data[4]? = some identifier ∧ length = be32 (b.data.take 4) ∧
      payload = (b.data.take (length + 1)).drop 5 ∧ 4 ≤ length ∧
      payload.length = length - 4 ∧ length + 1 ≤ b.data.length :=
  IdentifyPacket_regular_spec b hbytes identifier length payload h

/-- Witness of the amended C11: a buffer of length 9 with tag `Q` and payload
`ABCDE`. -/
theorem IdentifyPacket_regular_fields_witness :
    regularSampleNine.data[4]? = some 81 ∧ 9 = be32 (regularSampleNine.data.take 4) ∧
      ([65, 66, 67, 68, 69] : GoBytes) = (regularSampleNine.data.take (9 + 1)).drop 5 ∧
      4 ≤ 9 ∧ ([65, 66, 67, 68, 69] : GoBytes).length = 9 - 4 ∧
      9 + 1 ≤ regularSampleNine.data.length :=
  IdentifyPacket_regular_fields regularSampleNine (by decide) 81 9 [65, 66, 67, 68, 69]
    (by decide)

/-- C12.  A buffer of at least 8 bytes whose first four bytes declare a length
`L` with `4 < L <= len(data)` and whose bytes 4 to 8 are `00 03 00 00` is
returned as a startup packet with `Length = L` and `ProtocolVersion = 196608`
and a nil error. -/
theorem IdentifyPacket_startup (b : Buffer) (h8 : 8 ≤ b.data.length)
    (hL : 4 < be32 (b.data.take 4)) (hlen : be32 (b.data.take 4) ≤ b.data.length)
    (hv : (b.data.drop 4).take 4 = [0, 3, 0, 0]) :
    IdentifyPacket b
      = Run.ok (some (Packet.StartupPacket (be32 (b.data.take 4)) 196608), none) := by
  have hslice : b.slice 4 8 = Run.ok [0, 3, 0, 0] := by
    unfold Buffer.slice Buffer.cap
    have hc : 4 ≤ 8 ∧ 8 ≤ b.data.length + b.spare.length := ⟨by decide, by omega⟩
    rw [if_pos hc]
    have htake : (b.data ++ b.spare).take 8 = b.data.take 8 := List.take_append_of_le_length h8
    rw [htake, ← hv, List.drop_take]
  have hshort : ¬ b.data.length < 4 := by omega
  have hbe : be32 [0, 3, 0, 0] = ProtocolVersionNumber := by decide
  have hbe2 : be32 [0, 3, 0, 0] = 196608 := by decide
  have hpv : ProtocolVersionNumber = 196608 := rfl
  simp [IdentifyPacket, hshort, startupTest, hL, hlen, hslice, hbe, hbe2, hpv]

/-- Witness of C12: the startup packet of 16 bytes. -/
theorem IdentifyPacket_startup_witness :
    IdentifyPacket startupSample
      = Run.ok (some (Packet.StartupPacket (be32 (startupSample.data.take 4)) 196608), none) :=
  IdentifyPacket_startup startupSample (by decide) (by decide) (by decide) (by decide)

/-- C13.  A buffer shorter than 4 bytes, the empty one included, is answered
with no packet and the error `data too short`. -/
theorem IdentifyPacket_short (b : Buffer) (h : b.data.length < 4) :
    IdentifyPacket b = Run.ok (none, some "data too short") := by
  simp [IdentifyPacket, h]

/-- Witness of C13: a buffer of three bytes. -/
theorem IdentifyPacket_short_witness :
    IdentifyPacket ⟨[0, 0, 0], []⟩ = Run.ok (none, some "data too short") :=
  IdentifyPacket_short ⟨[0, 0, 0], []⟩ (by decide)

/-- With a declared length below 4 and more than five bytes, the regular branch
is entered and its payload slice `data[5 : length+1]` has its upper bound below
its lower bound: `IdentifyPacket` panics, whatever the capacity. -/
theorem IdentifyPacket_panics_of_small_length (b : Buffer) (hlen : 5 < b.data.length)
    (hL : be32 (b.data.take 4) < 4) : IdentifyPacket b = Run.panic := by
  have hshort : ¬ b.data.length < 4 := by omega
  have hst : startupTest b (be32 (b.data.take 4)) = Run.ok false := by
    unfold startupTest
    have hc : ¬ (be32 (b.data.take 4) > 4 ∧ b.data.length ≥ be32 (b.data.take 4)) := by omega
    rw [if_neg hc]
  have hg : b.data.length > 5 ∧ b.data.length ≥ be32 (b.data.take 4) + 1 := by omega
  have hidx : ∃ x, index b.data 4 = Run.ok x := by
    have h4 : 4 < b.data.length := by omega
    refine ⟨b.data[4], ?_⟩
    unfold index
    simp [List.getElem?_eq_getElem h4]
  obtain ⟨x, hx⟩ := hidx
  have hmod : (be32 (b.data.take 4) + 1) % 4294967296 = be32 (b.data.take 4) + 1 :=
    Nat.mod_eq_of_lt (by omega)
  have hslice : b.slice 5 ((be32 (b.data.take 4) + 1) % 4294967296) = Run.panic := by
    unfold Buffer.slice
    rw [hmod]
    have hc : ¬ (5 ≤ be32 (b.data.take 4) + 1 ∧ be32 (b.data.take 4) + 1 ≤ b.cap) := by omega
    rw [if_neg hc]
  unfold IdentifyPacket
  simp only [hshort, if_false, hst, Run.bind_ok, Bool.false_eq_true, hg, and_self, if_true, hx,
    hslice, Run.bind_panic]

/-- The startup test slices `data[4:8]` as soon as the declared length is above 4
and within the buffer; with fewer than 8 bytes of capacity that slice is out
of range and `IdentifyPacket` panics. -/
theorem IdentifyPacket_panics_of_small_capacity (b : Buffer) (hL : 4 < be32 (b.data.take 4))
    (hlen : be32 (b.data.take 4) ≤ b.data.length) (hcap : b.cap < 8) :
    IdentifyPacket b = Run.panic := by
  have hshort : ¬ b.data.length < 4 := by omega
  have hslice : b.slice 4 8 = Run.panic := by
    unfold Buffer.slice
    have hc : ¬ (4 ≤ 8 ∧ 8 ≤ b.cap) := by omega
    rw [if_neg hc]
  have hst : startupTest b (be32 (b.data.take 4)) = Run.panic := by
    unfold startupTest
    have hc : be32 (b.data.take 4) > 4 ∧ b.data.length ≥ be32 (b.data.take 4) := ⟨hL, hlen⟩
    rw [if_pos hc, hslice]
    rfl
  unfold IdentifyPacket
  simp only [hshort, if_false, hst, Run.bind_panic]

/-- Where `IdentifyPacket` does not panic: on a buffer shorter than `2 ^ 32`
that is shorter than 4 bytes or declares a length of at least 4 and has a
capacity of at least 8, it returns a packet or an error. -/
theorem IdentifyPacket_returns (b : Buffer) (hsize : b.data.length < 4294967296)
    (h : b.data.length < 4 ∨ (4 ≤ be32 (b.data.take 4) ∧ 8 ≤ b.cap)) :
    ∃ r : Option Packet × Option String, IdentifyPacket b = Run.ok r ∧
      (r.1 = none ↔ r.2 ≠ none) := by
  by_cases hshort : b.data.length < 4
  · exact ⟨(none, some "data too short"), by simp [IdentifyPacket, hshort], by simp⟩
  · have hL4 : 4 ≤ be32 (b.data.take 4) ∧ 8 ≤ b.cap := by
      rcases h with h | h
      · exact absurd h hshort
      · exact h
    have hslice : ∃ v, b.slice 4 8 = Run.ok v := by
      unfold Buffer.slice
      have hc : 4 ≤ 8 ∧ 8 ≤ b.cap := ⟨by decide, hL4.2⟩
      rw [if_pos hc]
      exact ⟨_, rfl⟩
    obtain ⟨v, hv⟩ := hslice
    have hst : ∃ st, startupTest b (be32 (b.data.take 4)) = Run.ok st := by
      unfold startupTest
      split
      · rw [hv]
        exact ⟨_, rfl⟩
      · exact ⟨false, rfl⟩
    obtain ⟨st, hst2⟩ := hst
    unfold IdentifyPacket
    simp only [hshort, if_false, hst2, Run.bind_ok]
    cases st with
    | true =>
      simp only [if_true, hv, Run.bind_ok]
      exact ⟨_, rfl, by simp⟩
    | false =>
      simp only [Bool.false_eq_true, if_false]
      by_cases hg : b.data.length > 5 ∧ b.data.length ≥ be32 (b.data.take 4) + 1
      · simp only [hg, and_self, if_true]
        have h4 : 4 < b.data.length := by omega
        have hidx : index b.data 4 = Run.ok b.data[4] := by
          unfold index
          simp [List.getElem?_eq_getElem h4]
        have hmod : (be32 (b.data.take 4) + 1) % 4294967296 = be32 (b.data.take 4) + 1 :=
          Nat.mod_eq_of_lt (by omega)
        have hsl : ∃ pl, b.slice 5 ((be32 (b.data.take 4) + 1) % 4294967296) = Run.ok pl := by
          unfold Buffer.slice Buffer.cap
          rw [hmod]
          have hc : 5 ≤ be32 (b.data.take 4) + 1
              ∧ be32 (b.data.take 4) + 1 ≤ b.data.length + b.spare.length := by omega
          rw [if_pos hc]
          exact ⟨_, rfl⟩
        obtain ⟨pl, hpl⟩ := hsl
        simp only [hidx, Run.bind_ok, hpl]
        exact ⟨_, rfl, by simp⟩
      · simp only [hg, if_false]
        exact ⟨_, rfl, by simp⟩

/-- C21.  The code at the failing inputs.  On the six bytes `00 00 00 00 51 41`
the declared length is 0, the regular branch is entered and the payload slice
`data[5:1]` panics.  On the seven bytes `00 00 00 05 00 03 00` with capacity
seven the startup test slices `data[4:8]` past the capacity and panics. -/
theorem IdentifyPacket_panics :
    zeroLengthSample.data.length = 6 ∧ be32 (zeroLengthSample.data.take 4) = 0 ∧
      IdentifyPacket zeroLengthSample = Run.panic ∧
      sevenByteSample.cap = 7 ∧ be32 (sevenByteSample.data.take 4) = 5 ∧
      IdentifyPacket sevenByteSample = Run.panic := by
  decide

/-! ## The claim about `checkScram` -/

/-- The function `stringsContains` decides whether the second text occurs in the first. -/
theorem stringsContains_iff (s substr : GoString) :
    stringsContains s substr = true ↔ substr <:+: s := by
  induction s with
  | nil =>
    rw [List.infix_nil]
    cases substr <;> simp [stringsContains]
  | cons c rest ih =>
    rw [List.infix_cons_iff, ← ih, ← List.isPrefixOf_iff_prefix]
    simp [stringsContains]

theorem checkScram_of_decoded (packet : GoString) (tag : Nat) (rest : GoBytes)
    (hdec : DecodeString packet = some (tag :: rest)) :
    checkScram packet =
      if tag = 78 then Run.ok false
      else (sliceFrom (tag :: rest) 5).bind fun payload =>
        if tag = 82 then
          (findAuthenticationMessageType payload).bind fun err =>
          if err ≠ none then Run.ok false
          else if stringsContains payload (ascii "SCRAM-SHA") then Run.ok true
          else Run.ok false
        else Run.ok false := by
  simp [checkScram, PostgresDecoder, hdec, index]

theorem findAuthenticationMessageType_nil :
    findAuthenticationMessageType [] = Run.ok (some "authentication message too short") := by
  simp [findAuthenticationMessageType]

/-- C14.  The function `checkScram` returns `true` exactly when the text decodes, the first
decoded byte is `R`, `findAuthenticationMessageType` on the bytes after the
five-byte header returns a nil error, and those bytes contain `SCRAM-SHA`; it
returns `false` whenever the text does not decode and whenever the first
decoded byte is `N`. -/
theorem checkScram_true_iff (packet : GoString) :
    (checkScram packet = Run.ok true ↔
      ∃ encoded : GoBytes, DecodeString packet = some encoded ∧ encoded.head? = some 82 ∧
        findAuthenticationMessageType (encoded.drop 5) = Run.ok none ∧
        ascii "SCRAM-SHA" <:+: encoded.drop 5) ∧
    (DecodeString packet = none → checkScram packet = Run.ok false) ∧
    (∀ encoded : GoBytes, DecodeString packet = some encoded → encoded.head? = some 78 →
      checkScram packet = Run.ok false) := by
  cases hdec : DecodeString packet with
  | none =>
    refine ⟨?_, fun _ => ?_, fun e he => by simp at he⟩
    · simp [checkScram, PostgresDecoder, hdec]
    · simp [checkScram, PostgresDecoder, hdec]
  | some encoded =>
    cases encoded with
    | nil =>
      refine ⟨?_, fun h => by simp at h, fun e he h78 => ?_⟩
      · simp [checkScram, PostgresDecoder, hdec, index]
      · simp at he
        subst he
        simp at h78
    | cons tag rest =>
      have hcs := checkScram_of_decoded packet tag rest hdec
      refine ⟨?_, fun h => by simp at h, fun e he h78 => ?_⟩
      · rw [hcs]
        simp only [Option.some.injEq, exists_eq_left', List.head?_cons]
        by_cases h78 : tag = 78
        · simp [h78]
        · simp only [h78, if_false]
          by_cases h82 : tag = 82
          · subst h82
            simp only [if_true, true_and]
            by_cases hlen : 5 ≤ (82 :: rest).length
            · have hs : sliceFrom (82 :: rest) 5 = Run.ok (List.drop 5 (82 :: rest)) := by
                unfold sliceFrom
                rw [if_pos hlen]
              rw [hs, Run.bind_ok]
              cases hfa : findAuthenticationMessageType (List.drop 5 (82 :: rest)) with
              | ok err =>
                cases err with
                | none =>
                  simp only [Run.bind_ok, ne_eq, not_true_eq_false, if_false, true_and]
                  rw [← stringsContains_iff]
                  by_cases hc :
                      stringsContains (List.drop 5 (82 :: rest)) (ascii "SCRAM-SHA") = true
                  · simp [hc]
                  · simp [hc]
                | some e => simp
              | panic => simp
              | hang => simp
            · have hs : sliceFrom (82 :: rest) 5 = Run.panic := by
                unfold sliceFrom
                rw [if_neg hlen]
              have hdrop : List.drop 5 (82 :: rest) = [] :=
                List.drop_eq_nil_of_le (by omega)
              rw [hs, hdrop, findAuthenticationMessageType_nil]
              simp
          · simp only [h82, if_false]
            cases hs : sliceFrom (tag :: rest) 5 <;> simp [h82]
      · simp at he
        subst he
        simp at h78
        rw [hcs, h78]
        simp

/-! ## The claims about the authentication decoders -/

/-- What `findAuthenticationMessageType` does in general: it returns an error
exactly for a payload shorter than 4 bytes, for the codes 6 and 9 and for a
code outside the table; for the codes 0, 3, 5, 7, 8, 11 and 12 it returns nil;
for the code 10 it returns nil if the loop of `DecodeSASL` ends. -/
theorem findAuthenticationMessageType_spec (src : GoBytes) :
    ((∃ e, findAuthenticationMessageType src = Run.ok (some e)) ↔
      (src.length < 4 ∨ be32 (src.take 4) = 6 ∨ be32 (src.take 4) = 9 ∨
        be32 (src.take 4) ∉ [0, 3, 5, 6, 7, 8, 9, 10, 11, 12])) ∧
    (4 ≤ src.length → be32 (src.take 4) ∈ [0, 3, 5, 7, 8, 11, 12] →
      findAuthenticationMessageType src = Run.ok none) ∧
    (4 ≤ src.length → be32 (src.take 4) = 10 →
      findAuthenticationMessageType src = (DecodeSASL src).bind fun _ => Run.ok none) := by
  by_cases hshort : src.length < 4
  · refine ⟨?_, fun h => by omega, fun h => by omega⟩
    simp [findAuthenticationMessageType, hshort]
  · have h4 : 4 ≤ src.length := by omega
    refine ⟨?_, fun _ hmem => ?_, fun _ h10 => ?_⟩
    · simp only [findAuthenticationMessageType, hshort, if_false, false_or]
      by_cases h0 : be32 (src.take 4) = 0
      · simp [h0]
      by_cases h3 : be32 (src.take 4) = 3
      · simp [h3]
      by_cases h5 : be32 (src.take 4) = 5
      · simp [h5]
      by_cases h6 : be32 (src.take 4) = 6
      · simp [h6]
      by_cases h7 : be32 (src.take 4) = 7
      · simp [h7]
      by_cases h8 : be32 (src.take 4) = 8
      · simp [h8]
      by_cases h9 : be32 (src.take 4) = 9
      · simp [h9]
      by_cases h10 : be32 (src.take 4) = 10
      · simp only [h10]
        cases DecodeSASL src <;> simp
      by_cases h11 : be32 (src.take 4) = 11
      · simp [h11]
      by_cases h12 : be32 (src.take 4) = 12
      · simp [h12]
      simp [h0, h3, h5, h6, h7, h8, h9, h10, h11, h12]
    · simp only [List.mem_cons, List.mem_singleton, List.not_mem_nil, or_false] at hmem
      rcases hmem with h | h | h | h | h | h | h <;>
        simp [findAuthenticationMessageType, hshort, h]
    · simp [findAuthenticationMessageType, hshort, h10]

/-- The outcomes of the loop of `DecodeSASL` read on the steps of the loop: a
returned value is the list accumulated when the loop condition first fails. -/
theorem saslLoop_ok_steps (fuel : Nat) (a : GoBytes) (acc r : List GoString)
    (h : saslLoop fuel a acc = Run.ok r) :
    ∃ n : Nat, saslGuard (saslStep^[n] (a, acc)) = false ∧ (saslStep^[n] (a, acc)).2 = r := by
  induction fuel generalizing a acc with
  | zero =>
    unfold saslLoop at h
    by_cases hg : a.length > 1
    · simp [hg] at h
    · simp [hg] at h
      exact ⟨0, by simp [saslGuard, hg], by simpa using h⟩
  | succ fuel ih =>
    unfold saslLoop at h
    by_cases hg : a.length > 1
    · simp only [hg, if_true] at h
      by_cases hidx : indexByte a 0 > 0
      · simp only [hidx, if_true] at h
        obtain ⟨n, hn1, hn2⟩ := ih _ _ h
        have hstep : saslStep (a, acc)
            = (a.drop ((indexByte a 0).toNat + 1), acc ++ [a.take (indexByte a 0).toNat]) := by
          simp [saslStep, hidx]
        refine ⟨n + 1, ?_, ?_⟩
        · rw [Function.iterate_succ_apply, hstep]
          exact hn1
        · rw [Function.iterate_succ_apply, hstep]
          exact hn2
      · simp [hidx] at h
    · simp [hg] at h
      exact ⟨0, by simp [saslGuard, hg], by simpa using h⟩

/-- The outcome `Run.hang` of the loop of `DecodeSASL` read on the steps of the
loop: with enough fuel it arises only in a state in which the loop condition
holds and the body changes nothing, so that the Go loop never ends. -/
theorem saslLoop_hang_steps (fuel : Nat) (a : GoBytes) (acc : List GoString)
    (hf : a.length ≤ fuel) (h : saslLoop fuel a acc = Run.hang) :
    ∃ n : Nat, saslGuard (saslStep^[n] (a, acc)) = true ∧
      saslStep (saslStep^[n] (a, acc)) = saslStep^[n] (a, acc) := by
  induction fuel generalizing a acc with
  | zero =>
    unfold saslLoop at h
    have hg : ¬ a.length > 1 := by omega
    simp [hg] at h
  | succ fuel ih =>
    unfold saslLoop at h
    by_cases hg : a.length > 1
    · simp only [hg, if_true] at h
      by_cases hidx : indexByte a 0 > 0
      · simp only [hidx, if_true] at h
        have hlen : (a.drop ((indexByte a 0).toNat + 1)).length ≤ fuel := by
          rcases indexByte_range a 0 with h1 | ⟨_, h2⟩
          · omega
          · simp only [List.length_drop]
            omega
        obtain ⟨n, hn1, hn2⟩ := ih _ _ hlen h
        have hstep : saslStep (a, acc)
            = (a.drop ((indexByte a 0).toNat + 1), acc ++ [a.take (indexByte a 0).toNat]) := by
          simp [saslStep, hidx]
        refine ⟨n + 1, ?_, ?_⟩
        · rw [Function.iterate_succ_apply, hstep]
          exact hn1
        · rw [Function.iterate_succ_apply, hstep]
          exact hn2
      · refine ⟨0, by simp [saslGuard, hg], ?_⟩
        simp [saslStep, hidx]
    · simp [hg] at h

theorem saslLoop_never_panics (fuel : Nat) (a : GoBytes) (acc : List GoString) :
    saslLoop fuel a acc ≠ Run.panic := by
  induction fuel generalizing a acc with
  | zero =>
    unfold saslLoop
    split <;> simp
  | succ fuel ih =>
    unfold saslLoop
    by_cases hg : a.length > 1
    · simp only [hg, if_true]
      by_cases hidx : indexByte a 0 > 0
      · simp only [hidx, if_true]
        exact ih _ _
      · simp [hidx]
    · simp [hg]

/-- C15.  The code at the failing input: on the payload `00 00 00 0A 00 00`,
whose code is 10, `findAuthenticationMessageType` calls `DecodeSASL`, whose
loop finds two bytes left and a NUL at index 0, changes nothing and so never
ends; the function returns neither an error nor nil. -/
theorem findAuthenticationMessageType_hangs_on_sasl :
    be32 (saslTwoNuls.take 4) = 10 ∧
      findAuthenticationMessageType saslTwoNuls = Run.hang ∧
      saslGuard (saslTwoNuls.drop 4, []) = true ∧
      saslStep (saslTwoNuls.drop 4, []) = (saslTwoNuls.drop 4, []) := by
  decide

/-- C16.  The code at the failing input: code 10, `SCRAM-SHA-256` and three NUL
bytes.  After the first step the loop state is two NUL bytes and the one name;
there the loop condition holds and the body changes nothing, so after any
number of steps the condition still holds and `DecodeSASL` never returns.  On
the payload of the spec the loop ends with the two names. -/
theorem DecodeSASL_loop_never_ends_on_three_nuls :
    DecodeSASL saslThreeNuls = Run.hang ∧
      saslStep (saslThreeNuls.drop 4, []) = ([0, 0], [ascii "SCRAM-SHA-256"]) ∧
      saslStep ([0, 0], [ascii "SCRAM-SHA-256"]) = ([0, 0], [ascii "SCRAM-SHA-256"]) ∧
      (∀ n : Nat, saslGuard (saslStep^[n] (saslThreeNuls.drop 4, [])) = true) ∧
      DecodeSASL saslTwoMechanisms
        = Run.ok (none, [ascii "SCRAM-SHA-256", ascii "SCRAM-SHA-256-PLUS"]) := by
  have h1 : saslStep (saslThreeNuls.drop 4, []) = ([0, 0], [ascii "SCRAM-SHA-256"]) := by
    decide
  have h2 : saslStep ([0, 0], [ascii "SCRAM-SHA-256"]) = ([0, 0], [ascii "SCRAM-SHA-256"]) := by
    decide
  refine ⟨by decide, h1, h2, ?_, by decide⟩
  intro n
  cases n with
  | zero => decide
  | succ n =>
    rw [Function.iterate_succ_apply, h1, Function.iterate_fixed h2]
    decide

/-! ## The claims about the similarity toolkit -/

/-- C17.  The function `JaccardSimilarity` is the size of the intersection over the size of
the union when the union is not empty, and 0 when both sets are empty; the
similarity of a non-empty set with itself is 1. -/
theorem JaccardSimilarity_eq (setA setB : Finset GoString) :
    (JaccardSimilarity setA setB
      = if (setA ∪ setB).card = 0 then 0
        else ((setA ∩ setB).card : ℚ) / ((setA ∪ setB).card : ℚ)) ∧
    ((setA ∪ setB).card = 0 ↔ (setA = ∅ ∧ setB = ∅)) ∧
    (setA ≠ ∅ → JaccardSimilarity setA setA = 1) := by
  have hgen : ∀ A B : Finset GoString, JaccardSimilarity A B
      = if (A ∪ B).card = 0 then 0 else ((A ∩ B).card : ℚ) / ((A ∪ B).card : ℚ) := by
    intro A B
    unfold JaccardSimilarity
    have hfilter : A.filter (fun k => k ∈ B) = A ∩ B := Finset.filter_mem_eq_inter
    have hcard := Finset.card_union_add_card_inter A B
    have hunion : ((A.card : Int) + (B.card : Int) - ((A ∩ B).card : Int))
        = ((A ∪ B).card : Int) := by
      omega
    simp only [hfilter, hunion]
    by_cases h0 : (A ∪ B).card = 0
    · simp [h0]
    · have h0i : ¬ (((A ∪ B).card : Int) = 0) := by exact_mod_cast h0
      simp [h0, h0i]
  refine ⟨hgen setA setB, ?_, ?_⟩
  · rw [Finset.card_eq_zero, Finset.union_eq_empty]
  · intro hne
    rw [hgen]
    have hpos : setA.card ≠ 0 := by
      rw [Ne, Finset.card_eq_zero]
      exact hne
    simp only [Finset.union_self, Finset.inter_self, hpos, if_false]
    have hq : (setA.card : ℚ) ≠ 0 := by exact_mod_cast hpos
    exact div_self hq

/-- C18.  For `length >= 0`, `N > 0` and `0 <= kMin <= kMax`, `AdaptiveK`
returns the quotient `length / N` clamped into `[kMin, kMax]`; for length 0
that is `kMin`, and `AdaptiveK(1000000, 3, 8, 5)` is 8. -/
theorem AdaptiveK_clamps (length kMin kMax N : Int) (hlen : 0 ≤ length) (hN : 0 < N)
    (hmin : 0 ≤ kMin) (hk : kMin ≤ kMax) :
    AdaptiveK length kMin kMax N = Run.ok (max kMin (min kMax (length / N))) ∧
      kMin ≤ max kMin (min kMax (length / N)) ∧ max kMin (min kMax (length / N)) ≤ kMax ∧
      AdaptiveK 0 kMin kMax N = Run.ok kMin ∧
      AdaptiveK 1000000 3 8 5 = Run.ok 8 := by
  have hN0 : ¬ (N = 0) := by omega
  have hdiv : Int.tdiv length N = length / N := Int.tdiv_eq_ediv hlen (le_of_lt hN)
  refine ⟨?_, le_max_left _ _, max_le hk (min_le_left _ _), ?_, by decide⟩
  · unfold AdaptiveK
    simp only [hN0, if_false, hdiv]
    by_cases h1 : length / N < kMin
    · have hm : max kMin (min kMax (length / N)) = kMin :=
        max_eq_left (le_trans (min_le_right _ _) (le_of_lt h1))
      simp [h1, hm]
    · by_cases h2 : length / N > kMax
      · have hm : max kMin (min kMax (length / N)) = kMax := by
          rw [min_eq_left (le_of_lt h2)]
          exact max_eq_right hk
        simp [h1, h2, hm]
      · have hm : max kMin (min kMax (length / N)) = length / N := by
          rw [min_eq_right (not_lt.mp h2)]
          exact max_eq_right (not_lt.mp h1)
        simp [h1, h2, hm]
  · unfold AdaptiveK
    simp only [hN0, if_false, Int.zero_tdiv]
    by_cases h1 : (0 : Int) < kMin
    · simp [h1]
    · have hk0 : kMin = 0 := by omega
      subst hk0
      simp
      omega

/-- Witness of C18 with the arguments of the matchers on a buffer of 33 bytes. -/
theorem AdaptiveK_clamps_witness :
    AdaptiveK 33 3 8 5 = Run.ok (max 3 (min 8 (33 / 5))) ∧
      (3 : Int) ≤ max 3 (min 8 (33 / 5)) ∧ max 3 (min 8 (33 / 5)) ≤ (8 : Int) ∧
      AdaptiveK 0 3 8 5 = Run.ok 3 ∧
      AdaptiveK 1000000 3 8 5 = Run.ok 8 :=
  AdaptiveK_clamps 33 3 8 5 (by decide) (by decide) (by decide) (by decide)

end PostgresParser

namespace Connection

open PostgresParser

/-! ## The sweep of the factory -/

/-- The keys that the first loop marks for one entry. -/
theorem visit_trackersToDelete (c : Collaborators) (st : Sweep) (entry : ConnID × Tracker) :
    (visit c st entry).trackersToDelete
      = st.trackersToDelete
        ++ (if entry.2.complete = true ∨ entry.2.malformed = true ∨ entry.2.inactive = true
            then [entry.1] else []) := by
  unfold visit
  by_cases hc : entry.2.complete = true
  · simp only [hc, if_true, true_or]
    split
    · rfl
    · split
      · rfl
      · split
        · rfl
        · split <;> rfl
  · have hc2 : entry.2.complete = false := by simpa using hc
    by_cases hm : (entry.2.malformed || entry.2.inactive) = true
    · have hm2 : entry.2.malformed = true ∨ entry.2.inactive = true := by simpa using hm
      simp [hc2, hm2]
    · have hm2 : ¬ (entry.2.malformed = true ∨ entry.2.inactive = true) := by simpa using hm
      simp only [Bool.not_eq_true] at hm
      simp [hc2, hm, hm2]

theorem visit_writes (c : Collaborators) (st : Sweep) (entry : ConnID × Tracker) :
    (visit c st entry).writes = st.writes ++ writesFor c entry := by
  unfold writesFor visit
  by_cases hc : entry.2.complete = true
  · simp only [hc, if_true]
    split
    · simp
    · split
      · simp
      · split
        · simp
        · split <;> simp
  · have hc2 : entry.2.complete = false := by simpa using hc
    simp only [hc2, Bool.false_eq_true, if_false]
    split <;> simp

theorem foldl_visit (c : Collaborators) (connections : List (ConnID × Tracker)) (st : Sweep) :
    (connections.foldl (visit c) st).trackersToDelete
        = st.trackersToDelete ++ connections.flatMap (fun entry =>
            if entry.2.complete = true ∨ entry.2.malformed = true ∨ entry.2.inactive = true
            then [entry.1] else []) ∧
      (connections.foldl (visit c) st).writes
        = st.writes ++ connections.flatMap (writesFor c) := by
  induction connections generalizing st with
  | nil => simp
  | cons e rest ih =>
    obtain ⟨h1, h2⟩ := ih (visit c st e)
    simp only [List.foldl_cons, List.flatMap_cons]
    rw [h1, h2, visit_trackersToDelete, visit_writes]
    simp [List.append_assoc]

theorem foldl_deleteKey (keys : List ConnID) (connections : List (ConnID × Tracker)) :
    keys.foldl deleteKey connections
      = connections.filter (fun entry => decide (entry.1 ∉ keys)) := by
  induction keys generalizing connections with
  | nil => simp
  | cons k keys ih =>
    simp only [List.foldl_cons]
    rw [ih]
    unfold deleteKey
    rw [List.filter_filter]
    congr 1
    funext entry
    by_cases h1 : entry.1 = k
    · simp [h1]
    · by_cases h2 : entry.1 ∈ keys
      · simp [h1, h2]
      · simp [h1, h2]

/-- The sweep in closed form: an entry stays exactly when its key is not
marked, and the calls made are those of the entries, in the order of the
visit. -/
theorem HandleReadyConnections_eq (c : Collaborators) (connections : List (ConnID × Tracker)) :
    HandleReadyConnections c connections
      = (connections.filter (fun entry => decide (entry.1 ∉ connections.flatMap (fun e =>
            if e.2.complete = true ∨ e.2.malformed = true ∨ e.2.inactive = true
            then [e.1] else []))),
         connections.flatMap (writesFor c)) := by
  unfold HandleReadyConnections
  obtain ⟨h1, h2⟩ := foldl_visit c connections ⟨[], []⟩
  simp only [List.nil_append] at h1 h2
  simp only [h1, h2, foldl_deleteKey]

theorem mem_marked_iff (connections : List (ConnID × Tracker)) (key : ConnID) :
    key ∈ connections.flatMap (fun e =>
        if e.2.complete = true ∨ e.2.malformed = true ∨ e.2.inactive = true
        then [e.1] else [])
      ↔ ∃ e ∈ connections, e.1 = key ∧
          (e.2.complete = true ∨ e.2.malformed = true ∨ e.2.inactive = true) := by
  rw [List.mem_flatMap]
  constructor
  · rintro ⟨e, he, hk⟩
    by_cases hm : e.2.complete = true ∨ e.2.malformed = true ∨ e.2.inactive = true
    · simp only [hm, if_true, List.mem_singleton] at hk
      exact ⟨e, he, hk.symm, hm⟩
    · simp [hm] at hk
  · rintro ⟨e, he, hk, hm⟩
    exact ⟨e, he, by simp [hm, hk]⟩

theorem writesFor_key (c : Collaborators) (entry : ConnID × Tracker) (w : ConnID × TestCase)
    (h : w ∈ writesFor c entry) : w.1 = entry.1 := by
  unfold writesFor visit at h
  by_cases hc : entry.2.complete = true
  · simp only [hc, if_true] at h
    split at h
    · simp at h
    · split at h
      · simp at h
      · split at h
        · simp at h
        · split at h
          · simp at h
            obtain ⟨tc, _, hw⟩ := h
            rw [← hw]
          · simp at h
          · simp at h
  · have hc2 : entry.2.complete = false := by simpa using hc
    simp only [hc2, Bool.false_eq_true, if_false] at h
    split at h <;> simp at h

/-- The calls made for a finished tracker whose buffers parse. -/
theorem writesFor_parsed (c : Collaborators) (entry : ConnID × Tracker)
    (req : HttpRequest) (resp : HttpResponse)
    (hc : entry.2.complete = true) (hne : ¬ (entry.2.SentBuf = [] ∧ entry.2.RecvBuf = []))
    (hreq : c.ParseHTTPRequest entry.2.RecvBuf = some req)
    (hresp : c.ParseHTTPResponse entry.2.SentBuf req = some resp) :
    writesFor c entry
      = if c.GetMode = Mode.MODE_RECORD then (capture req resp).map fun tc => (entry.1, tc)
        else [] := by
  have hne2 : ¬ (entry.2.SentBuf.length = 0 ∧ entry.2.RecvBuf.length = 0) := by
    simpa [List.length_eq_zero] using hne
  unfold writesFor visit
  simp only [hc, if_true, hne2, if_false, hreq, hresp]
  cases c.GetMode <;> simp

/-- No call is made for a tracker that is not finished, for a finished one with
both buffers empty, or for a finished one with a buffer that a parser rejects. -/
theorem writesFor_nil (c : Collaborators) (entry : ConnID × Tracker)
    (h : entry.2.complete = false ∨
      (entry.2.SentBuf = [] ∧ entry.2.RecvBuf = []) ∨
      c.ParseHTTPRequest entry.2.RecvBuf = none ∨
      (∃ req, c.ParseHTTPRequest entry.2.RecvBuf = some req ∧
        c.ParseHTTPResponse entry.2.SentBuf req = none)) :
    writesFor c entry = [] := by
  unfold writesFor visit
  by_cases hc : entry.2.complete = true
  · simp only [hc, if_true]
    rcases h with h | h | h | ⟨req, h1, h2⟩
    · rw [hc] at h
      exact Bool.noConfusion h
    · simp [h.1, h.2]
    · split
      · rfl
      · simp [h]
    · split
      · rfl
      · simp [h1, h2]
  · have hc2 : entry.2.complete = false := by simpa using hc
    simp only [hc2, Bool.false_eq_true, if_false]
    split <;> rfl

/-- With distinct keys, the calls carrying the key of an entry of the map are
the calls made for that entry. -/
theorem filter_writes_of_nodup (c : Collaborators) (connections : List (ConnID × Tracker))
    (hnodup : (connections.map Prod.fst).Nodup) (entry : ConnID × Tracker)
    (hmem : entry ∈ connections) :
    (connections.flatMap (writesFor c)).filter (fun w => decide (w.1 = entry.1))
      = writesFor c entry := by
  induction connections with
  | nil => simp at hmem
  | cons e rest ih =>
    simp only [List.map_cons, List.nodup_cons] at hnodup
    obtain ⟨hnot, hrest⟩ := hnodup
    simp only [List.flatMap_cons, List.filter_append]
    rcases List.mem_cons.mp hmem with heq | hin
    · subst heq
      have h1 : (writesFor c entry).filter (fun w => decide (w.1 = entry.1))
          = writesFor c entry := by
        rw [List.filter_eq_self]
        intro w hw
        simp [writesFor_key c entry w hw]
      have h2 : (rest.flatMap (writesFor c)).filter (fun w => decide (w.1 = entry.1)) = [] := by
        rw [List.filter_eq_nil_iff]
        intro w hw
        obtain ⟨e2, he2, hw2⟩ := List.mem_flatMap.mp hw
        have hk := writesFor_key c e2 w hw2
        simp only [decide_eq_true_eq]
        intro hc
        exact hnot (List.mem_map.mpr ⟨e2, he2, by rw [← hk, hc]⟩)
      rw [h1, h2, List.append_nil]
    · have h1 : (writesFor c e).filter (fun w => decide (w.1 = entry.1)) = [] := by
        rw [List.filter_eq_nil_iff]
        intro w hw
        have hk := writesFor_key c e w hw
        simp only [decide_eq_true_eq]
        intro hc
        exact hnot (List.mem_map.mpr ⟨entry, hin, by rw [← hc, hk]⟩)
      rw [h1, List.nil_append]
      exact ih hrest hin

/-! ## The claims about `HandleReadyConnections` -/

theorem removed_of_marked (c : Collaborators) (connections : List (ConnID × Tracker))
    (connID : ConnID) (tracker : Tracker) (hmem : (connID, tracker) ∈ connections)
    (hmark : tracker.complete = true ∨ tracker.malformed = true ∨ tracker.inactive = true)
    (t : Tracker) : (connID, t) ∉ (HandleReadyConnections c connections).1 := by
  rw [HandleReadyConnections_eq]
  intro hin
  have hk := (List.mem_filter.mp hin).2
  simp only [decide_eq_true_eq] at hk
  exact hk ((mem_marked_iff connections connID).mpr ⟨(connID, tracker), hmem, rfl, hmark⟩)

theorem no_write_of_writesFor_nil (c : Collaborators) (connections : List (ConnID × Tracker))
    (hnodup : (connections.map Prod.fst).Nodup) (connID : ConnID) (tracker : Tracker)
    (hmem : (connID, tracker) ∈ connections) (hnil : writesFor c (connID, tracker) = [])
    (tc : TestCase) : (connID, tc) ∉ (HandleReadyConnections c connections).2 := by
  rw [HandleReadyConnections_eq]
  intro hin
  have hf := filter_writes_of_nodup c connections hnodup (connID, tracker) hmem
  have hin2 : (connID, tc) ∈ (connections.flatMap (writesFor c)).filter
      (fun w => decide (w.1 = (connID, tracker).1)) :=
    List.mem_filter.mpr ⟨hin, by simp⟩
  rw [hf, hnil] at hin2
  simp at hin2

/-- C19, as stated, fails: in record mode the tracker with key 2 is inactive
beyond the threshold, but it is also complete and its buffers parse, so a
`WriteTestcase` call is made for it. -/
theorem sweep_captures_an_inactive_complete_tracker :
    (2, (⟨ascii "PUT", ascii "204", true, false, true⟩ : Tracker)) ∈ sampleConnections ∧
      (2, (⟨⟨ascii "PUT", some (ascii "PUT")⟩, ascii "PUT",
            ⟨ascii "204", some (ascii "204")⟩, ascii "204"⟩ : TestCase))
        ∈ (HandleReadyConnections (sampleCollaborators Mode.MODE_RECORD) sampleConnections).2 := by
  decide

/-- C19, amended.  In a map with distinct keys, every tracker that is complete
with both buffers empty, or complete with a buffer that a parser rejects (in
particular complete with an empty receive or send buffer when the parsers
reject the empty buffer), or not complete and malformed or inactive, is absent
from the map after the sweep and no `WriteTestcase` call is made for it,
whatever the mode. -/
theorem sweep_discards_without_capture (c : Collaborators)
    (connections : List (ConnID × Tracker)) (hnodup : (connections.map Prod.fst).Nodup)
    (connID : ConnID) (tracker : Tracker) (hmem : (connID, tracker) ∈ connections)
    (hcase :
      (tracker.complete = true ∧ tracker.SentBuf = [] ∧ tracker.RecvBuf = []) ∨
      (tracker.complete = true ∧ c.ParseHTTPRequest tracker.RecvBuf = none) ∨
      (tracker.complete = true ∧ ∃ req, c.ParseHTTPRequest tracker.RecvBuf = some req ∧
        c.ParseHTTPResponse tracker.SentBuf req = none) ∨
      (tracker.complete = true ∧ (tracker.RecvBuf = [] ∨ tracker.SentBuf = []) ∧
        c.ParseHTTPRequest [] = none ∧ ∀ req, c.ParseHTTPResponse [] req = none) ∨
      (tracker.complete = false ∧ (tracker.malformed = true ∨ tracker.inactive = true))) :
    (∀ t : Tracker, (connID, t) ∉ (HandleReadyConnections c connections).1) ∧
    (∀ tc : TestCase, (connID, tc) ∉ (HandleReadyConnections c connections).2) := by
  have hmark : tracker.complete = true ∨ tracker.malformed = true ∨ tracker.inactive = true := by
    rcases hcase with h | h | h | h | h
    · exact Or.inl h.1
    · exact Or.inl h.1
    · exact Or.inl h.1
    · exact Or.inl h.1
    · exact Or.inr h.2
  have hnil : writesFor c (connID, tracker) = [] := by
    apply writesFor_nil
    rcases hcase with h | h | h | h | h
    · exact Or.inr (Or.inl h.2)
    · exact Or.inr (Or.inr (Or.inl h.2))
    · exact Or.inr (Or.inr (Or.inr h.2))
    · obtain ⟨_, hempty, hpr, hps⟩ := h
      rcases hempty with hr | hs
      · refine Or.inr (Or.inr (Or.inl ?_))
        show c.ParseHTTPRequest tracker.RecvBuf = none
        rw [hr]
        exact hpr
      · cases hq : c.ParseHTTPRequest tracker.RecvBuf with
        | none => exact Or.inr (Or.inr (Or.inl rfl))
        | some req =>
          refine Or.inr (Or.inr (Or.inr ⟨req, rfl, ?_⟩))
          show c.ParseHTTPResponse tracker.SentBuf req = none
          rw [hs]
          exact hps req
    · exact Or.inl h.1
  exact ⟨removed_of_marked c connections connID tracker hmem hmark,
    no_write_of_writesFor_nil c connections hnodup connID tracker hmem hnil⟩

/-- Witness of the amended C19: the finished tracker with key 4 sent nothing;
in record mode it leaves the map and nothing is written for it. -/
theorem sweep_discards_without_capture_witness :
    (∀ t : Tracker,
      (4, t) ∉ (HandleReadyConnections (sampleCollaborators Mode.MODE_RECORD)
        sampleConnections).1) ∧
    (∀ tc : TestCase,
      (4, tc) ∉ (HandleReadyConnections (sampleCollaborators Mode.MODE_RECORD)
        sampleConnections).2) :=
  sweep_discards_without_capture (sampleCollaborators Mode.MODE_RECORD) sampleConnections
    (by decide) 4 ⟨ascii "GET", [], true, false, false⟩ (by decide)
    (Or.inr (Or.inr (Or.inr (Or.inl ⟨rfl, Or.inr rfl, rfl, fun _ => rfl⟩))))

/-- C20, as stated, fails: in record mode the tracker is complete, both its
buffers are non-empty and both parse, but reading the request body fails in
`capture`, which returns before `WriteTestcase`; no call is made. -/
theorem sweep_writes_nothing_when_body_is_unreadable :
    unreadableBodyConnections = [(7, ⟨ascii "!POST", ascii "200", true, false, false⟩)] ∧
      sampleParseRequest (ascii "!POST") = some ⟨ascii "!POST", none⟩ ∧
      sampleParseResponse (ascii "200") ⟨ascii "!POST", none⟩
        = some ⟨ascii "200", some (ascii "200")⟩ ∧
      HandleReadyConnections (sampleCollaborators Mode.MODE_RECORD) unreadableBodyConnections
        = ([], []) := by
  decide

/-- C20, amended.  In a map with distinct keys, for a tracker that is complete
with non-empty receive and send buffers that both parse and whose parsed
request and response bodies are read without error: in record mode exactly one
`WriteTestcase` call is made for it, in any other mode none; in every mode the
tracker is absent from the map after the sweep, and every tracker that is
neither complete nor malformed nor inactive is still in the map. -/
theorem sweep_captures_once_in_record_mode (c : Collaborators)
    (connections : List (ConnID × Tracker)) (hnodup : (connections.map Prod.fst).Nodup)
    (connID : ConnID) (tracker : Tracker) (hmem : (connID, tracker) ∈ connections)
    (hc : tracker.complete = true) (hrecv : tracker.RecvBuf ≠ []) (_hsent : tracker.SentBuf ≠ [])
    (req : HttpRequest) (resp : HttpResponse) (reqBody respBody : GoBytes)
    (hreq : c.ParseHTTPRequest tracker.RecvBuf = some req)
    (hresp : c.ParseHTTPResponse tracker.SentBuf req = some resp)
    (hrb : req.Body = some reqBody) (hsb : resp.Body = some respBody) :
    (c.GetMode = Mode.MODE_RECORD →
      (HandleReadyConnections c connections).2.filter (fun w => decide (w.1 = connID))
        = [(connID, ⟨req, reqBody, resp, respBody⟩)]) ∧
    (c.GetMode ≠ Mode.MODE_RECORD →
      ∀ tc : TestCase, (connID, tc) ∉ (HandleReadyConnections c connections).2) ∧
    (∀ t : Tracker, (connID, t) ∉ (HandleReadyConnections c connections).1) ∧
    (∀ e ∈ connections, e.2.complete = false → e.2.malformed = false →
      e.2.inactive = false → e ∈ (HandleReadyConnections c connections).1) := by
  have hne : ¬ ((connID, tracker).2.SentBuf = [] ∧ (connID, tracker).2.RecvBuf = []) :=
    fun h => hrecv h.2
  have hw := writesFor_parsed c (connID, tracker) req resp hc hne hreq hresp
  have hcap : capture req resp = [⟨req, reqBody, resp, respBody⟩] := by
    simp [capture, hrb, hsb]
  refine ⟨fun hmode => ?_, fun hmode => ?_, ?_, ?_⟩
  · have hf := filter_writes_of_nodup c connections hnodup (connID, tracker) hmem
    rw [HandleReadyConnections_eq]
    simp only at hf ⊢
    rw [hf, hw, hcap]
    simp [hmode]
  · apply no_write_of_writesFor_nil c connections hnodup connID tracker hmem
    rw [hw]
    simp [hmode]
  · exact removed_of_marked c connections connID tracker hmem (Or.inl hc)
  · intro e he h1 h2 h3
    rw [HandleReadyConnections_eq]
    apply List.mem_filter.mpr
    refine ⟨he, ?_⟩
    simp only [decide_eq_true_eq]
    intro hk
    obtain ⟨e2, he2, hkey, hmark⟩ := (mem_marked_iff connections e.1).mp hk
    have heq : e2 = e := List.inj_on_of_nodup_map hnodup he2 he hkey
    subst heq
    rw [h1, h2, h3] at hmark
    simp at hmark

/-- Witness of the amended C20: in record mode the finished exchange with key 1
is written once and leaves the map, and the connection in progress stays. -/
theorem sweep_captures_once_in_record_mode_witness :
    ((sampleCollaborators Mode.MODE_RECORD).GetMode = Mode.MODE_RECORD →
      (HandleReadyConnections (sampleCollaborators Mode.MODE_RECORD) sampleConnections).2.filter
          (fun w => decide (w.1 = 1))
        = [(1, ⟨⟨ascii "GET", some (ascii "GET")⟩, ascii "GET",
              ⟨ascii "200", some (ascii "200")⟩, ascii "200"⟩)]) ∧
    ((sampleCollaborators Mode.MODE_RECORD).GetMode ≠ Mode.MODE_RECORD →
      ∀ tc : TestCase,
        (1, tc) ∉ (HandleReadyConnections (sampleCollaborators Mode.MODE_RECORD)
          sampleConnections).2) ∧
    (∀ t : Tracker,
      (1, t) ∉ (HandleReadyConnections (sampleCollaborators Mode.MODE_RECORD)
        sampleConnections).1) ∧
    (∀ e ∈ sampleConnections, e.2.complete = false → e.2.malformed = false →
      e.2.inactive = false →
      e ∈ (HandleReadyConnections (sampleCollaborators Mode.MODE_RECORD) sampleConnections).1) :=
  sweep_captures_once_in_record_mode (sampleCollaborators Mode.MODE_RECORD) sampleConnections
    (by decide) 1 ⟨ascii "GET", ascii "200", true, false, false⟩ (by decide) rfl (by decide)
    (by decide) ⟨ascii "GET", some (ascii "GET")⟩ ⟨ascii "200", some (ascii "200")⟩
    (ascii "GET") (ascii "200") (by decide) (by decide) rfl rfl

end Connection
